import Mathlib

/-!
Scaffolding inputs and the admission-webhook builder.

A shallow embedding of `pkg/scaffold/input/input.go` and of
`pkg/scaffold/v1/webhook/admissionbuilder.go`.

* Go methods with a pointer receiver that mutate the receiver become functions
  returning the new value of the receiver.
* Go `string` is Lean `String`, a sequence of runes; the empty string is the
  zero value. Go strings that are not valid UTF-8 are outside the model.
* A nil pointer is `none`; dereferencing it (a run-time panic in Go) makes the
  embedded function return `none`.
* The functions of the Go library that the sources call (`strings`, `unicode`,
  `path/filepath` for Unix, `text/template`) follow the Go library; the case
  tables of package `unicode`, which are data, are a parameter.
-/

namespace input

/-- The Go type `IfExistsAction` (an `int` with three named constants, `Skip` being zero). -/
inductive IfExistsAction where
  | Skip
  | Error
  | Overwrite
  deriving DecidableEq, Repr

/-- The Go struct `Input`: the input for scaffolding a file. -/
structure Input where
  Path : String
  IfExistsAction : IfExistsAction
  TemplateBody : String
  Boilerplate : String
  BoilerplatePath : String
  Version : String
  Domain : String
  Repo : String
  ProjectPath : String
  MultiGroup : Bool
  deriving DecidableEq, Repr

namespace Input

/-- `func (i *Input) SetDomain(d string)`. -/
def SetDomain (i : Input) (d : String) : Input :=
  if i.Domain = "" then { i with Domain := d } else i

/-- `func (i *Input) SetRepo(r string)`. -/
def SetRepo (i : Input) (r : String) : Input :=
  if i.Repo = "" then { i with Repo := r } else i

/-- `func (i *Input) SetBoilerplate(b string)`. -/
def SetBoilerplate (i : Input) (b : String) : Input :=
  if i.Boilerplate = "" then { i with Boilerplate := b } else i

/-- `func (i *Input) SetBoilerplatePath(bp string)`. -/
def SetBoilerplatePath (i : Input) (bp : String) : Input :=
  if i.BoilerplatePath = "" then { i with BoilerplatePath := bp } else i

/-- `func (i *Input) SetVersion(v string)`. -/
def SetVersion (i : Input) (v : String) : Input :=
  if i.Version = "" then { i with Version := v } else i

/-- `func (i *Input) SetMultiGroup(v bool)`. -/
def SetMultiGroup (i : Input) (v : Bool) : Input :=
  { i with MultiGroup := v }

/-- `func (i *Input) SetProjectPath(p string)`. -/
def SetProjectPath (i : Input) (p : String) : Input :=
  if i.ProjectPath = "" then { i with ProjectPath := p } else i

end Input

/-- One call of one of the seven setters of `Input`, with its argument. -/
inductive SetterCall where
  | domain (d : String)
  | repo (r : String)
  | boilerplate (b : String)
  | boilerplatePath (bp : String)
  | version (v : String)
  | multiGroup (v : Bool)
  | projectPath (p : String)
  deriving DecidableEq, Repr

/-- The setter a call invokes, numbered in the order of the source file. -/
def SetterCall.setter : SetterCall → Fin 7
  | .domain _ => 0
  | .repo _ => 1
  | .boilerplate _ => 2
  | .boilerplatePath _ => 3
  | .version _ => 4
  | .multiGroup _ => 5
  | .projectPath _ => 6

/-- Performs one setter call on an `Input`. -/
def SetterCall.run (i : Input) : SetterCall → Input
  | .domain d => i.SetDomain d
  | .repo r => i.SetRepo r
  | .boilerplate b => i.SetBoilerplate b
  | .boilerplatePath bp => i.SetBoilerplatePath bp
  | .version v => i.SetVersion v
  | .multiGroup v => i.SetMultiGroup v
  | .projectPath p => i.SetProjectPath p

/-- Performs a finite sequence of setter calls, first call first. -/
def runCalls (i : Input) (calls : List SetterCall) : Input :=
  calls.foldl SetterCall.run i

/-- The string values a driver offers to the six string setters. -/
structure Context where
  Domain : String
  Repo : String
  Boilerplate : String
  BoilerplatePath : String
  Version : String
  ProjectPath : String
  deriving DecidableEq, Repr

/-- Modelled from the spec: the driver that applies the project context is not
among the sources; this calls the six string setters of the source, one after
the other, each with the value the context gives for it. -/
def applyStringSetters (i : Input) (v : Context) : Input :=
  (((((i.SetDomain v.Domain).SetRepo v.Repo).SetBoilerplate v.Boilerplate).SetBoilerplatePath
    v.BoilerplatePath).SetVersion v.Version).SetProjectPath v.ProjectPath

/-- The Go struct `Resource` of the PROJECT file: a scaffolded resource. -/
structure Resource where
  Group : String
  Version : String
  Kind : String
  deriving DecidableEq, Repr

/-- The Go struct `ProjectFile`. -/
structure ProjectFile where
  Version : String
  Domain : String
  Repo : String
  Resources : List Resource
  MultiGroup : Bool
  deriving DecidableEq, Repr

/-- A Go `map[string]struct{}`, held as the list of its keys without repetition. -/
abbrev GroupSet := List String

/-- The assignment `groupSet[k] = struct{}{}`: a key already present stays as it is. -/
def GroupSet.set (m : GroupSet) (k : String) : GroupSet :=
  if k ∈ m then m else m ++ [k]

/-- `func (pf *ProjectFile) ResourceGroups() []string`.

The first loop fills the map with the group of every resource; the second loop
ranges over the map and appends every key. Go leaves the iteration order of a
map unspecified: `rangeOrder m` is the order in which the run time hands out
the keys of `m`. -/
def ProjectFile.ResourceGroups (rangeOrder : GroupSet → List String) (pf : ProjectFile) :
    List String :=
  let groupSet : GroupSet := pf.Resources.foldl (fun m r => m.set r.Group) []
  (rangeOrder groupSet).foldl (fun groups g => groups ++ [g]) []

/-- What Go guarantees of ranging over a map: every key is produced exactly once. -/
def RangesOverKeys (rangeOrder : GroupSet → List String) : Prop :=
  ∀ m : GroupSet, (rangeOrder m).Perm m

end input

namespace unicode

/-- The case tables of Go's package `unicode` (`CaseRanges`), which are data of
the Go library and not among the sources: for a rune beyond ASCII, `lower` is
what the table lookup `To(LowerCase, r)` gives and `title` is what
`To(TitleCase, r)` gives. -/
structure CaseTables where
  lower : Char → Char
  title : Char → Char

/-- Go's `unicode.ToLower`: up to `MaxASCII` the letters `A`..`Z` are mapped to
`a`..`z` and every other rune to itself; beyond, the case table decides. -/
def ToLower (tables : CaseTables) (r : Char) : Char :=
  if r.toNat ≤ 0x7F then r.toLower else tables.lower r

/-- Go's `unicode.ToTitle`: up to `MaxASCII` the letters `a`..`z` are mapped to
`A`..`Z` and every other rune to itself; beyond, the case table decides. -/
def ToTitle (tables : CaseTables) (r : Char) : Char :=
  if r.toNat ≤ 0x7F then r.toUpper else tables.title r

end unicode

namespace strings

/-- Go's `strings.ToLower`: every rune of the string is mapped by
`unicode.ToLower`. -/
def ToLower (tables : unicode.CaseTables) (s : String) : String :=
  ⟨s.data.map (unicode.ToLower tables)⟩

/-- Go's `unicode.IsSpace` on runes outside ASCII (the property White_Space). -/
def isSpaceBeyondASCII (r : Char) : Bool :=
  r.toNat = 0x85 || r.toNat = 0xA0 || r.toNat = 0x1680 || (0x2000 ≤ r.toNat && r.toNat ≤ 0x200a)
    || r.toNat = 0x2028 || r.toNat = 0x2029 || r.toNat = 0x202f || r.toNat = 0x205f
    || r.toNat = 0x3000

/-- Go's `strings.isSeparator`: ASCII alphanumerics and underscore are not
separators, every other ASCII rune is; beyond ASCII letters and digits are not
separators and of the remaining runes only spaces are. No space is a letter
or a digit, so beyond ASCII the separators are the spaces. -/
def isSeparator (r : Char) : Bool :=
  if r.toNat ≤ 0x7F then
    !(r.isDigit || r.isLower || r.isUpper || r = '_')
  else
    isSpaceBeyondASCII r

/-- The loop of Go's `strings.Title`: `prev` is the rune before the current one
(a space at the start); a rune that follows a separator is mapped by
`unicode.ToTitle`, every other rune stays as it is. -/
def titleRunes (tables : unicode.CaseTables) (prev : Char) : List Char → List Char
  | [] => []
  | r :: rest =>
    (if isSeparator prev then unicode.ToTitle tables r else r) :: titleRunes tables r rest

/-- Go's `strings.Title`. -/
def Title (tables : unicode.CaseTables) (s : String) : String :=
  ⟨titleRunes tables ' ' s.data⟩

/-- The elements, with the separator between each two neighbours. -/
def joinRunes (sep : List Char) : List (List Char) → List Char
  | [] => []
  | [a] => a
  | a :: b :: rest => a ++ (sep ++ joinRunes sep (b :: rest))

/-- Go's `strings.Join(elems, sep)`: the empty string for no element, the
element itself for one, and otherwise the elements with `sep` between them. -/
def Join (elems : List String) (sep : String) : String :=
  ⟨joinRunes sep.data (elems.map String.data)⟩

end strings

namespace filepath

/-- Cuts a path at every separator `/`; a path without separator is one element. -/
def splitSep : List Char → List (List Char)
  | [] => [[]]
  | c :: cs =>
    if c = '/' then [] :: splitSep cs
    else
      match splitSep cs with
      | [] => [[c]]
      | e :: es => (c :: e) :: es

/-- One path element met by Go's `filepath.Clean`; `out` holds the elements kept
so far, the last one first. An empty element (repeated separator) and `.` are
dropped; `..` removes the element kept before it, unless there is none (or it
is a kept `..`), in which case it is kept on a path that is not rooted and
dropped on a rooted one; every other element is kept. -/
def cleanStep (rooted : Bool) (out : List (List Char)) (e : List Char) : List (List Char) :=
  if e = [] ∨ e = ['.'] then out
  else if e = ['.', '.'] then
    match out with
    | [] => if rooted then [] else [e]
    | top :: below =>
      if top = ['.', '.'] then (if rooted then out else e :: out) else below
  else e :: out

/-- Go's `filepath.Clean` (Unix): the shortest path equivalent to `path` by
purely lexical processing; the empty path gives `.`. -/
def Clean (path : String) : String :=
  if path = "" then "."
  else
    let rooted : Bool := path.data.head? = some '/'
    let out := (splitSep path.data).foldl (cleanStep rooted) []
    if rooted then ⟨'/' :: strings.joinRunes ['/'] out.reverse⟩
    else if out = [] then "."
    else ⟨strings.joinRunes ['/'] out.reverse⟩

/-- Go's `filepath.Join` (Unix): the elements from the first non-empty one on
are joined with the separator and the result is cleaned; if every element is
empty the result is the empty string. -/
def Join (elem : List String) : String :=
  match elem.dropWhile (fun e => e = "") with
  | [] => ""
  | e :: es => Clean (strings.Join (e :: es) "/")

end filepath

namespace resource

/-- Modelled from the spec: the declaration of the Go struct `resource.Resource`
is not among the sources; the resource descriptor carries a group, a version
and a kind, the fields the builder and its template read. -/
structure Resource where
  Group : String
  Version : String
  Kind : String
  deriving DecidableEq, Repr

end resource

namespace template

/-- A value that an action of a template can print or test: the fields of the
builder that the model covers hold strings and booleans. -/
inductive Value where
  | string (s : String)
  | bool (b : Bool)
  deriving DecidableEq, Repr

/-- What `fmt.Fprint` writes for a value. -/
def Value.print : Value → String
  | .string s => s
  | .bool true => "true"
  | .bool false => "false"

/-- The truth of a value in an `if` action: a boolean is its own truth, a
string is true unless it is empty. -/
def Value.truth : Value → Bool
  | .string s => s ≠ ""
  | .bool b => b

/-- The state of the lexer: in text, in text after one opening brace, in an
action, in an action after one closing brace. -/
inductive LexState where
  | text
  | textBrace
  | action
  | actionBrace
  deriving DecidableEq, Repr

/-- A lexical item: a run of text, or what stands between the delimiters of an
action. -/
inductive Item where
  | text (s : List Char)
  | action (s : List Char)
  deriving DecidableEq, Repr

/-- The lexer: text runs up to the next pair of opening braces, an action up to
the next pair of closing braces; `acc` holds the runes of the current item,
the last one first. An action that is not closed is an error. -/
def lex : LexState → List Char → List Char → Option (List Item)
  | .text, acc, [] => some [.text acc.reverse]
  | .textBrace, acc, [] => some [.text ('{' :: acc).reverse]
  | .action, _, [] => none
  | .actionBrace, _, [] => none
  | .text, acc, c :: rest =>
    if c = '{' then lex .textBrace acc rest else lex .text (c :: acc) rest
  | .textBrace, acc, c :: rest =>
    if c = '{' then (lex .action [] rest).map (fun items => .text acc.reverse :: items)
    else lex .text (c :: '{' :: acc) rest
  | .action, acc, c :: rest =>
    if c = '}' then lex .actionBrace acc rest else lex .action (c :: acc) rest
  | .actionBrace, acc, c :: rest =>
    if c = '}' then (lex .text [] rest).map (fun items => .action acc.reverse :: items)
    else lex .action (c :: '}' :: acc) rest

/-- Cuts a run of runes at every occurrence of `sep`. -/
def splitAt (sep : Char) : List Char → List (List Char)
  | [] => [[]]
  | c :: cs =>
    if c = sep then [] :: splitAt sep cs
    else
      match splitAt sep cs with
      | [] => [[c]]
      | e :: es => (c :: e) :: es

/-- A node of a parsed template: text, the action that prints a chain of
fields, and the three control actions `if` (on a chain of fields), `else` and
`end`. -/
inductive Node where
  | text (s : String)
  | field (chain : List String)
  | ifField (chain : List String)
  | orElse
  | endIf
  deriving DecidableEq, Repr

/-- A chain of fields such as `.Resource.Group`: a dot before every name, no
name empty. -/
def parseChain (word : List Char) : Option (List String) :=
  match splitAt '.' word with
  | [] :: name :: names =>
    if (name :: names).all (fun n => n ≠ []) then some ((name :: names).map String.mk) else none
  | _ => none

/-- The inside of an action, cut into words at spaces: a chain of fields, `if`
with a chain of fields, `else` or `end`. Every other action is outside the
model and counts as an error. -/
def parseAction (s : List Char) : Option Node :=
  match (splitAt ' ' s).filter (fun w => w ≠ []) with
  | [w] =>
    if w = ['e', 'l', 's', 'e'] then some .orElse
    else if w = ['e', 'n', 'd'] then some .endIf
    else (parseChain w).map .field
  | [k, w] => if k = ['i', 'f'] then (parseChain w).map .ifField else none
  | _ => none

/-- The nodes of a lexed template. -/
def parseItems : List Item → Option (List Node)
  | [] => some []
  | .text s :: rest => (parseItems rest).map (fun nodes => .text ⟨s⟩ :: nodes)
  | .action s :: rest =>
    match parseAction s with
    | none => none
    | some node => (parseItems rest).map (fun nodes => node :: nodes)

/-- An `if` that is open during the execution: whether the branch being read
is the one taken, and whether its `else` has been met. -/
structure Branch where
  taken : Bool
  inElse : Bool
  deriving DecidableEq, Repr

/-- Executes parsed nodes on data given by the lookup of chains of fields.
`open_` holds the open `if` actions, the innermost first; text and printing
actions write only when every open branch is taken; a field that the data
does not have is an error when the action is reached. -/
def exec (lookup : List String → Option Value) : List Branch → List Node → Option String
  | [], [] => some ""
  | _ :: _, [] => none
  | open_, .text s :: rest =>
    (exec lookup open_ rest).map (fun out => if open_.all (fun b => b.taken) then s ++ out else out)
  | open_, .field chain :: rest =>
    if open_.all (fun b => b.taken) then
      match lookup chain with
      | none => none
      | some v => (exec lookup open_ rest).map (fun out => v.print ++ out)
    else exec lookup open_ rest
  | open_, .ifField chain :: rest =>
    if open_.all (fun b => b.taken) then
      match lookup chain with
      | none => none
      | some v => exec lookup (⟨v.truth, false⟩ :: open_) rest
    else exec lookup (⟨false, false⟩ :: open_) rest
  | [], .orElse :: _ => none
  | b :: open_, .orElse :: rest =>
    if b.inElse then none else exec lookup (⟨!b.taken, true⟩ :: open_) rest
  | [], .endIf :: _ => none
  | _ :: open_, .endIf :: rest => exec lookup open_ rest

/-- Go's `Template.Parse`, for templates made of text, actions that print a
chain of fields, and `if`/`else`/`end` on a chain of fields: the nodes, or
`none` for an error. -/
def Parse (body : String) : Option (List Node) :=
  (lex .text [] body.data).bind parseItems

/-- Go's `Template.Execute` on a parsed template: the text written, or `none`
for an error. -/
def Execute (body : String) (lookup : List String → Option Value) : Option String :=
  (Parse body).bind (exec lookup [])

end template

namespace webhook

/-- Modelled from the spec: the declaration of the Go struct `Config` is not
among the sources; it carries the three fields the builder reads through the
embedding: the server name, the webhook type and the operations. The Go field
`Type` is `Type_` here, `Type` being a reserved word. -/
structure Config where
  Server : String
  Type_ : String
  Operations : List String
  deriving DecidableEq, Repr

/-- The Go struct `AdmissionWebhookBuilder`. The embedded structs `input.Input`
and `Config` are parents, so that their fields are fields of the builder as in
Go; `Resource` is a pointer, `none` when nil. -/
structure AdmissionWebhookBuilder extends input.Input, Config where
  Resource : Option resource.Resource
  ResourcePackage : String
  BuilderName : String
  OperationsParameterString : String
  Mutating : Bool
  deriving DecidableEq, Repr

/-- What `GetInput` uses and is not among the sources: of package `webhook`
the variable `coreGroups` and the functions `getResourceInfo` and
`builderName`; of the Go library the case tables of package `unicode`, which
`strings.ToLower` and `strings.Title` look up for runes beyond ASCII. -/
structure Package where
  coreGroups : List (String × String)
  getResourceInfo : List (String × String) → resource.Resource → input.Input → String
  builderName : Config → String → String
  unicode : unicode.CaseTables

/-- The constant `admissionWebhookBuilderTemplate`. -/
def admissionWebhookBuilderTemplate : String :=
  "\x7b\x7b .Boilerplate \x7d\x7d\n\n" ++
  "package \x7b\x7b .Type \x7d\x7d\n" ++
  "\nimport (\n" ++
  "\tadmissionregistrationv1beta1 \"k8s.io/api/admissionregistration/v1beta1\"\n" ++
  "\t\"sigs.k8s.io/controller-runtime/pkg/webhook/admission/builder\"\n" ++
  "\t\x7b\x7b .Resource.Group\x7d\x7d\x7b\x7b .Resource.Version \x7d\x7d \"\x7b\x7b .ResourcePackage \x7d\x7d/\x7b\x7b .Resource.Group\x7d\x7d/\x7b\x7b .Resource.Version \x7d\x7d\"\n" ++
  ")\n\n" ++
  "func init() \x7b\n" ++
  "\tbuilderName := \"\x7b\x7b .BuilderName \x7d\x7d\"\n" ++
  "\tBuilders[builderName] = builder.\n" ++
  "\t\tNewWebhookBuilder().\n" ++
  "\t\tName(builderName + \".\x7b\x7b .Domain \x7d\x7d\").\n" ++
  "\t\tPath(\"/\" + builderName).\n" ++
  "\x7b\x7b if .Mutating \x7d\x7d\tMutating().\n" ++
  "\x7b\x7b else \x7d\x7d\tValidating().\n" ++
  "\x7b\x7b end \x7d\x7d\n" ++
  "\t\tOperations(\x7b\x7b .OperationsParameterString \x7d\x7d).\n" ++
  "\t\tFailurePolicy(admissionregistrationv1beta1.Fail).\n" ++
  "\t\tForType(&\x7b\x7b .Resource.Group\x7d\x7d\x7b\x7b .Resource.Version \x7d\x7d.\x7b\x7b .Resource.Kind \x7d\x7d\x7b\x7d)\n" ++
  "\x7d\n"

/-- What a call of `GetInput` that does not panic leaves behind: the receiver
after the call and the two returned values (`err` is `none` for a nil error). -/
structure GetInputResult where
  receiver : AdmissionWebhookBuilder
  ret : input.Input
  err : Option String
  deriving DecidableEq, Repr

/-- `func (f *AdmissionWebhookBuilder) GetInput() (input.Input, error)`.
With a nil `Resource` the call panics on the dereference, which is `none`. -/
def AdmissionWebhookBuilder.GetInput (pkg : Package) (f : AdmissionWebhookBuilder) :
    Option GetInputResult :=
  match f.Resource with
  | none => none
  | some res =>
    let f := { f with ResourcePackage := pkg.getResourceInfo pkg.coreGroups res f.toInput }
    let f := if f.Type_ = "mutating" then { f with Mutating := true } else f
    let f := { f with Type_ := strings.ToLower pkg.unicode f.Type_ }
    let f :=
      { f with BuilderName := pkg.builderName f.toConfig (strings.ToLower pkg.unicode res.Kind) }
    let ops :=
      f.Operations.map
        (fun op => "admissionregistrationv1beta1." ++ strings.Title pkg.unicode op)
    let f := { f with OperationsParameterString := strings.Join ops ", " }
    let f :=
      if f.Path = "" then
        { f with Path := filepath.Join ["pkg", "webhook", f.Server ++ "_server",
            strings.ToLower pkg.unicode res.Kind, f.Type_,
            strings.Join f.Operations "_" ++ "_webhook.go"] }
      else f
    let f := { f with TemplateBody := admissionWebhookBuilderTemplate }
    some { receiver := f, ret := f.toInput, err := none }

/-- A path element that `filepath.Clean` keeps as one element: it is not empty,
is neither `.` nor `..`, and contains no separator. -/
def PlainElement (s : String) : Prop :=
  s ≠ "" ∧ s ≠ "." ∧ s ≠ ".." ∧ '/' ∉ s.data

/-- An operation that is not empty and contains neither the `_` that joins the
operations in the file name nor the path separator. -/
def PlainOperation (op : String) : Prop :=
  op ≠ "" ∧ '_' ∉ op.data ∧ '/' ∉ op.data

/-- The condition under which the four components can be read back from the
synthesized path: the server name contains no separator, the lower-cased kind
and the lower-cased type are plain path elements, and every operation is a
plain operation. -/
def PlainTuple (server kind type : String) (operations : List String) : Prop :=
  '/' ∉ server.data ∧ PlainElement kind ∧ PlainElement type
    ∧ ∀ op ∈ operations, PlainOperation op

/-- The fields of the builder as a template sees them, by name: the string and
boolean fields of the builder and of the two embedded structs, and the three
fields of the resource, which are an error when `Resource` is nil. -/
def AdmissionWebhookBuilder.field (f : AdmissionWebhookBuilder) :
    List String → Option template.Value
  | ["Path"] => some (.string f.Path)
  | ["TemplateBody"] => some (.string f.TemplateBody)
  | ["Boilerplate"] => some (.string f.Boilerplate)
  | ["BoilerplatePath"] => some (.string f.BoilerplatePath)
  | ["Version"] => some (.string f.Version)
  | ["Domain"] => some (.string f.Domain)
  | ["Repo"] => some (.string f.Repo)
  | ["ProjectPath"] => some (.string f.ProjectPath)
  | ["MultiGroup"] => some (.bool f.MultiGroup)
  | ["Server"] => some (.string f.Server)
  | ["Type"] => some (.string f.Type_)
  | ["Resource", "Group"] => f.Resource.map (fun r => .string r.Group)
  | ["Resource", "Version"] => f.Resource.map (fun r => .string r.Version)
  | ["Resource", "Kind"] => f.Resource.map (fun r => .string r.Kind)
  | ["ResourcePackage"] => some (.string f.ResourcePackage)
  | ["BuilderName"] => some (.string f.BuilderName)
  | ["OperationsParameterString"] => some (.string f.OperationsParameterString)
  | ["Mutating"] => some (.bool f.Mutating)
  | _ => none

/-- Modelled from the spec: the driver that renders a scaffolded file is not
among the sources; the template body of the returned `Input` is executed with
the builder itself, as `GetInput` left it, as the data. -/
def GetInputResult.render (r : GetInputResult) : Option String :=
  template.Execute r.ret.TemplateBody r.receiver.field

end webhook

/-! ## Sample values -/

namespace sample

/-- An `Input` at its zero value. -/
def zeroInput : input.Input :=
  { Path := "", IfExistsAction := .Skip, TemplateBody := "", Boilerplate := "",
    BoilerplatePath := "", Version := "", Domain := "", Repo := "", ProjectPath := "",
    MultiGroup := false }

/-- An `Input` whose six context strings are all set. -/
def filledInput : input.Input :=
  { Path := "main.go", IfExistsAction := .Error, TemplateBody := "body", Boilerplate := "// header",
    BoilerplatePath := "hack/boilerplate.go.txt", Version := "2", Domain := "example.com",
    Repo := "github.com/acme/proj", ProjectPath := "..", MultiGroup := false }

/-- A context whose six values are all empty. -/
def emptyContext : input.Context :=
  { Domain := "", Repo := "", Boilerplate := "", BoilerplatePath := "", Version := "",
    ProjectPath := "" }

/-- A context whose six values are all set. -/
def acmeContext : input.Context :=
  { Domain := "example.com", Repo := "github.com/acme/proj", Boilerplate := "// header",
    BoilerplatePath := "hack/boilerplate.go.txt", Version := "2", ProjectPath := ".." }

/-- A sequence of calls that offers a new value to every setter. -/
def otherCalls : List input.SetterCall :=
  [.domain "other.org", .multiGroup true, .repo "r", .boilerplate "b", .boilerplatePath "bp",
   .version "1", .projectPath "p", .domain ""]

/-- A project file with three resources in two groups. -/
def twoGroups : input.ProjectFile :=
  { Version := "2", Domain := "example.com", Repo := "github.com/acme/proj",
    Resources := [⟨"apps", "v1", "Foo"⟩, ⟨"batch", "v1", "Job"⟩, ⟨"apps", "v1beta1", "Bar"⟩],
    MultiGroup := true }

/-- A project file without resources. -/
def noResources : input.ProjectFile :=
  { Version := "2", Domain := "example.com", Repo := "github.com/acme/proj",
    Resources := [], MultiGroup := false }

/-- A part of the case tables of Unicode: capital E with acute (U+00C9) and its
small form (U+00E9), capital I with dot above (U+0130), whose small form is the
letter `i`, and the Kelvin sign (U+212A), whose small form is the letter `k`.
Every other rune stands for itself. -/
def someCaseTables : unicode.CaseTables :=
  { lower := fun r =>
      if r.toNat = 0xC9 then Char.ofNat 0xE9
      else if r.toNat = 0x130 then 'i'
      else if r.toNat = 0x212A then 'k'
      else r,
    title := fun r => if r.toNat = 0xE9 then Char.ofNat 0xC9 else r }

/-- Stand-ins for what `GetInput` uses and is not among the sources. -/
def stubPackage : webhook.Package :=
  { coreGroups := [],
    getResourceInfo := fun _ r _ => r.Group,
    builderName := fun c k => c.Server ++ "-" ++ k,
    unicode := someCaseTables }

/-- A freshly constructed builder with the given resource kind and configuration. -/
def builder (server kind type : String) (operations : List String) :
    webhook.AdmissionWebhookBuilder :=
  { toInput := zeroInput,
    Server := server, Type_ := type, Operations := operations,
    Resource := some ⟨"apps", "v1", kind⟩, ResourcePackage := "", BuilderName := "",
    OperationsParameterString := "", Mutating := false }

end sample

/-! ## The setters of `Input` -/

namespace input

open Input

/-- C1: each of the six string setters leaves its own field at its previous
value if that was non-empty and sets it to the proposed string otherwise, and
leaves every other field of the `Input` as it was (putting the previous value
of the setter's field back gives the previous `Input`). -/
theorem string_setters_set_if_empty (i : Input) (p : String) :
    ((i.SetDomain p).Domain = (if i.Domain ≠ "" then i.Domain else p)
      ∧ { i.SetDomain p with Domain := i.Domain } = i)
    ∧ ((i.SetRepo p).Repo = (if i.Repo ≠ "" then i.Repo else p)
      ∧ { i.SetRepo p with Repo := i.Repo } = i)
    ∧ ((i.SetBoilerplate p).Boilerplate = (if i.Boilerplate ≠ "" then i.Boilerplate else p)
      ∧ { i.SetBoilerplate p with Boilerplate := i.Boilerplate } = i)
    ∧ ((i.SetBoilerplatePath p).BoilerplatePath
        = (if i.BoilerplatePath ≠ "" then i.BoilerplatePath else p)
      ∧ { i.SetBoilerplatePath p with BoilerplatePath := i.BoilerplatePath } = i)
    ∧ ((i.SetVersion p).Version = (if i.Version ≠ "" then i.Version else p)
      ∧ { i.SetVersion p with Version := i.Version } = i)
    ∧ ((i.SetProjectPath p).ProjectPath = (if i.ProjectPath ≠ "" then i.ProjectPath else p)
      ∧ { i.SetProjectPath p with ProjectPath := i.ProjectPath } = i) := by
  cases i
  refine ⟨⟨?_, ?_⟩, ⟨?_, ?_⟩, ⟨?_, ?_⟩, ⟨?_, ?_⟩, ⟨?_, ?_⟩, ⟨?_, ?_⟩⟩ <;>
    simp only [SetDomain, SetRepo, SetBoilerplate, SetBoilerplatePath, SetVersion,
      SetProjectPath] <;>
    split_ifs <;> simp_all

/-- A setter call leaves a non-empty `Domain` alone. -/
theorem SetterCall.run_Domain (i : Input) (c : SetterCall) (h : i.Domain ≠ "") :
    (c.run i).Domain = i.Domain := by
  cases c <;>
    simp only [SetterCall.run, SetDomain, SetRepo, SetBoilerplate, SetBoilerplatePath,
      SetVersion, SetProjectPath, SetMultiGroup] <;>
    split_ifs <;> simp_all

/-- A setter call leaves a non-empty `Repo` alone. -/
theorem SetterCall.run_Repo (i : Input) (c : SetterCall) (h : i.Repo ≠ "") :
    (c.run i).Repo = i.Repo := by
  cases c <;>
    simp only [SetterCall.run, SetDomain, SetRepo, SetBoilerplate, SetBoilerplatePath,
      SetVersion, SetProjectPath, SetMultiGroup] <;>
    split_ifs <;> simp_all

/-- A setter call leaves a non-empty `Boilerplate` alone. -/
theorem SetterCall.run_Boilerplate (i : Input) (c : SetterCall) (h : i.Boilerplate ≠ "") :
    (c.run i).Boilerplate = i.Boilerplate := by
  cases c <;>
    simp only [SetterCall.run, SetDomain, SetRepo, SetBoilerplate, SetBoilerplatePath,
      SetVersion, SetProjectPath, SetMultiGroup] <;>
    split_ifs <;> simp_all

/-- A setter call leaves a non-empty `BoilerplatePath` alone. -/
theorem SetterCall.run_BoilerplatePath (i : Input) (c : SetterCall)
    (h : i.BoilerplatePath ≠ "") : (c.run i).BoilerplatePath = i.BoilerplatePath := by
  cases c <;>
    simp only [SetterCall.run, SetDomain, SetRepo, SetBoilerplate, SetBoilerplatePath,
      SetVersion, SetProjectPath, SetMultiGroup] <;>
    split_ifs <;> simp_all

/-- A setter call leaves a non-empty `Version` alone. -/
theorem SetterCall.run_Version (i : Input) (c : SetterCall) (h : i.Version ≠ "") :
    (c.run i).Version = i.Version := by
  cases c <;>
    simp only [SetterCall.run, SetDomain, SetRepo, SetBoilerplate, SetBoilerplatePath,
      SetVersion, SetProjectPath, SetMultiGroup] <;>
    split_ifs <;> simp_all

/-- A setter call leaves a non-empty `ProjectPath` alone. -/
theorem SetterCall.run_ProjectPath (i : Input) (c : SetterCall) (h : i.ProjectPath ≠ "") :
    (c.run i).ProjectPath = i.ProjectPath := by
  cases c <;>
    simp only [SetterCall.run, SetDomain, SetRepo, SetBoilerplate, SetBoilerplatePath,
      SetVersion, SetProjectPath, SetMultiGroup] <;>
    split_ifs <;> simp_all

/-- A field that every single call preserves once it is non-empty is preserved
by every sequence of calls. -/
theorem runCalls_preserves (field : Input → String)
    (step : ∀ (i : Input) (c : SetterCall), field i ≠ "" → field (c.run i) = field i)
    (calls : List SetterCall) :
    ∀ i : Input, field i ≠ "" → field (runCalls i calls) = field i := by
  induction calls with
  | nil => intro i _; rfl
  | cons c rest ih =>
    intro i h
    have h1 : field (c.run i) = field i := step i c h
    have h2 : field (c.run i) ≠ "" := by rw [h1]; exact h
    have h3 := ih (c.run i) h2
    simpa [runCalls, h1] using h3

/-- C2: set-if-empty is an invariant of the defaulting protocol: after any
finite sequence of calls to the seven setters, with any arguments, each of
`Domain`, `Repo`, `Boilerplate`, `BoilerplatePath`, `Version` and `ProjectPath`
that was non-empty before the sequence has the value it had before. -/
theorem set_if_empty_invariant (i : Input) (calls : List SetterCall) :
    (i.Domain ≠ "" → (runCalls i calls).Domain = i.Domain)
    ∧ (i.Repo ≠ "" → (runCalls i calls).Repo = i.Repo)
    ∧ (i.Boilerplate ≠ "" → (runCalls i calls).Boilerplate = i.Boilerplate)
    ∧ (i.BoilerplatePath ≠ "" → (runCalls i calls).BoilerplatePath = i.BoilerplatePath)
    ∧ (i.Version ≠ "" → (runCalls i calls).Version = i.Version)
    ∧ (i.ProjectPath ≠ "" → (runCalls i calls).ProjectPath = i.ProjectPath) :=
  ⟨runCalls_preserves Input.Domain SetterCall.run_Domain calls i,
   runCalls_preserves Input.Repo SetterCall.run_Repo calls i,
   runCalls_preserves Input.Boilerplate SetterCall.run_Boilerplate calls i,
   runCalls_preserves Input.BoilerplatePath SetterCall.run_BoilerplatePath calls i,
   runCalls_preserves Input.Version SetterCall.run_Version calls i,
   runCalls_preserves Input.ProjectPath SetterCall.run_ProjectPath calls i⟩

/-- The invariant of C2 on an `Input` whose six strings are set, under a
sequence of calls that offers another value to each setter. -/
theorem set_if_empty_invariant_witness :
    (runCalls sample.filledInput sample.otherCalls).Domain = "example.com"
    ∧ (runCalls sample.filledInput sample.otherCalls).Repo = "github.com/acme/proj"
    ∧ (runCalls sample.filledInput sample.otherCalls).Boilerplate = "// header"
    ∧ (runCalls sample.filledInput sample.otherCalls).BoilerplatePath
        = "hack/boilerplate.go.txt"
    ∧ (runCalls sample.filledInput sample.otherCalls).Version = "2"
    ∧ (runCalls sample.filledInput sample.otherCalls).ProjectPath = ".."
    ∧ (runCalls sample.filledInput sample.otherCalls).MultiGroup = true :=
  have h := set_if_empty_invariant sample.filledInput sample.otherCalls
  ⟨h.1 (by decide), h.2.1 (by decide), h.2.2.1 (by decide), h.2.2.2.1 (by decide),
   h.2.2.2.2.1 (by decide), h.2.2.2.2.2 (by decide), by decide⟩

/-- C3, as stated, fails: on an `Input` at its zero value, a first context
with an empty domain leaves `Domain` empty, and a second context then sets it. -/
theorem idempotent_defaulting_counterexample :
    (applyStringSetters (applyStringSetters sample.zeroInput sample.emptyContext)
        sample.acmeContext).Domain = "example.com"
    ∧ (applyStringSetters sample.zeroInput sample.emptyContext).Domain = ""
    ∧ (applyStringSetters (applyStringSetters sample.zeroInput sample.emptyContext)
        sample.acmeContext).Domain
      ≠ (applyStringSetters sample.zeroInput sample.emptyContext).Domain := by
  decide

/-- `SetDomain` as one update of the field `Domain`. -/
theorem SetDomain_eq (i : Input) (p : String) :
    i.SetDomain p = { i with Domain := if i.Domain = "" then p else i.Domain } := by
  cases i
  simp only [SetDomain]
  split_ifs <;> simp_all

/-- `SetRepo` as one update of the field `Repo`. -/
theorem SetRepo_eq (i : Input) (p : String) :
    i.SetRepo p = { i with Repo := if i.Repo = "" then p else i.Repo } := by
  cases i
  simp only [SetRepo]
  split_ifs <;> simp_all

/-- `SetBoilerplate` as one update of the field `Boilerplate`. -/
theorem SetBoilerplate_eq (i : Input) (p : String) :
    i.SetBoilerplate p = { i with Boilerplate := if i.Boilerplate = "" then p else i.Boilerplate } := by
  cases i
  simp only [SetBoilerplate]
  split_ifs <;> simp_all

/-- `SetBoilerplatePath` as one update of the field `BoilerplatePath`. -/
theorem SetBoilerplatePath_eq (i : Input) (p : String) :
    i.SetBoilerplatePath p = { i with BoilerplatePath := if i.BoilerplatePath = "" then p else i.BoilerplatePath } := by
  cases i
  simp only [SetBoilerplatePath]
  split_ifs <;> simp_all

/-- `SetVersion` as one update of the field `Version`. -/
theorem SetVersion_eq (i : Input) (p : String) :
    i.SetVersion p = { i with Version := if i.Version = "" then p else i.Version } := by
  cases i
  simp only [SetVersion]
  split_ifs <;> simp_all

/-- `SetProjectPath` as one update of the field `ProjectPath`. -/
theorem SetProjectPath_eq (i : Input) (p : String) :
    i.SetProjectPath p = { i with ProjectPath := if i.ProjectPath = "" then p else i.ProjectPath } := by
  cases i
  simp only [SetProjectPath]
  split_ifs <;> simp_all

/-- What the six string setters, called with a context, leave in the six
string fields. -/
theorem applyStringSetters_fields (i : Input) (v : Context) :
    (applyStringSetters i v).Domain = (if i.Domain = "" then v.Domain else i.Domain)
    ∧ (applyStringSetters i v).Repo = (if i.Repo = "" then v.Repo else i.Repo)
    ∧ (applyStringSetters i v).Boilerplate
        = (if i.Boilerplate = "" then v.Boilerplate else i.Boilerplate)
    ∧ (applyStringSetters i v).BoilerplatePath
        = (if i.BoilerplatePath = "" then v.BoilerplatePath else i.BoilerplatePath)
    ∧ (applyStringSetters i v).Version = (if i.Version = "" then v.Version else i.Version)
    ∧ (applyStringSetters i v).ProjectPath
        = (if i.ProjectPath = "" then v.ProjectPath else i.ProjectPath) := by
  simp only [applyStringSetters, SetProjectPath_eq, SetVersion_eq, SetBoilerplatePath_eq,
    SetBoilerplate_eq, SetRepo_eq, SetDomain_eq, and_self]

/-- C3, amended: applying the six string setters with `V1` and then with `V2`
leaves each of the six string fields that is non-empty after `V1` alone at the
value `V1` alone leaves, and gives a field that `V1` alone leaves empty the
value of `V2`. -/
theorem idempotent_defaulting (D : Input) (V1 V2 : Context) :
    (applyStringSetters (applyStringSetters D V1) V2).Domain
      = (if (applyStringSetters D V1).Domain = "" then V2.Domain
         else (applyStringSetters D V1).Domain)
    ∧ (applyStringSetters (applyStringSetters D V1) V2).Repo
      = (if (applyStringSetters D V1).Repo = "" then V2.Repo
         else (applyStringSetters D V1).Repo)
    ∧ (applyStringSetters (applyStringSetters D V1) V2).Boilerplate
      = (if (applyStringSetters D V1).Boilerplate = "" then V2.Boilerplate
         else (applyStringSetters D V1).Boilerplate)
    ∧ (applyStringSetters (applyStringSetters D V1) V2).BoilerplatePath
      = (if (applyStringSetters D V1).BoilerplatePath = "" then V2.BoilerplatePath
         else (applyStringSetters D V1).BoilerplatePath)
    ∧ (applyStringSetters (applyStringSetters D V1) V2).Version
      = (if (applyStringSetters D V1).Version = "" then V2.Version
         else (applyStringSetters D V1).Version)
    ∧ (applyStringSetters (applyStringSetters D V1) V2).ProjectPath
      = (if (applyStringSetters D V1).ProjectPath = "" then V2.ProjectPath
         else (applyStringSetters D V1).ProjectPath) :=
  applyStringSetters_fields (applyStringSetters D V1) V2

/-- C4: `SetMultiGroup` is unconditional and the last value wins: after
`SetMultiGroup v` the field `MultiGroup` is `v` whatever it was, every other
field is unchanged, and after `SetMultiGroup v1` followed by `SetMultiGroup v2`
the field is `v2`. -/
theorem SetMultiGroup_last_value_wins (i : Input) (v v1 v2 : Bool) :
    (i.SetMultiGroup v).MultiGroup = v
    ∧ { i.SetMultiGroup v with MultiGroup := i.MultiGroup } = i
    ∧ ((i.SetMultiGroup v1).SetMultiGroup v2).MultiGroup = v2 := by
  cases i
  simp [SetMultiGroup]

/-- C5: two calls of distinct setters commute: performed in either order, with
any arguments, they yield the same `Input`. -/
theorem setter_order_insignificant (i : Input) (c1 c2 : SetterCall)
    (h : c1.setter ≠ c2.setter) : c2.run (c1.run i) = c1.run (c2.run i) := by
  cases i
  cases c1 <;> cases c2 <;>
    first
    | exact absurd rfl h
    | (simp only [SetterCall.run, SetDomain, SetRepo, SetBoilerplate, SetBoilerplatePath,
        SetVersion, SetProjectPath, SetMultiGroup]
       split_ifs <;> simp_all)

/-- C5 on a zero `Input`: setting the repository and the multi-group flag in
either order. -/
theorem setter_order_insignificant_witness :
    (SetterCall.multiGroup true).run ((SetterCall.repo "github.com/acme/proj").run
        sample.zeroInput)
      = (SetterCall.repo "github.com/acme/proj").run ((SetterCall.multiGroup true).run
        sample.zeroInput) :=
  setter_order_insignificant sample.zeroInput (.repo "github.com/acme/proj") (.multiGroup true)
    (by decide)

/-! ## The groups of a project file -/

/-- The second loop of `ResourceGroups` appends the keys in the order it meets them. -/
theorem foldl_append_keys (keys acc : List String) :
    keys.foldl (fun groups g => groups ++ [g]) acc = acc ++ keys := by
  induction keys generalizing acc with
  | nil => simp
  | cons k rest ih => simp [ih]

/-- Assigning a key keeps the key list free of repetition. -/
theorem GroupSet.set_nodup (m : GroupSet) (k : String) (h : m.Nodup) : (m.set k).Nodup := by
  unfold GroupSet.set
  split_ifs with hk
  · exact h
  · exact List.Nodup.append h (List.nodup_singleton k) (by simpa using hk)

/-- The keys after an assignment: the assigned key and the keys before. -/
theorem GroupSet.mem_set (m : GroupSet) (k g : String) : g ∈ m.set k ↔ g ∈ m ∨ g = k := by
  unfold GroupSet.set
  split_ifs with hk
  · constructor
    · exact Or.inl
    · rintro (h | h)
      · exact h
      · exact h ▸ hk
  · simp

/-- The first loop of `ResourceGroups` keeps the key list free of repetition. -/
theorem fill_nodup (rs : List Resource) (m : GroupSet) (h : m.Nodup) :
    (rs.foldl (fun m r => m.set r.Group) m).Nodup := by
  induction rs generalizing m with
  | nil => exact h
  | cons r rest ih => exact ih _ (GroupSet.set_nodup m r.Group h)

/-- The keys after the first loop of `ResourceGroups`. -/
theorem mem_fill (rs : List Resource) (m : GroupSet) (g : String) :
    g ∈ rs.foldl (fun m r => m.set r.Group) m ↔ g ∈ m ∨ ∃ r ∈ rs, r.Group = g := by
  induction rs generalizing m with
  | nil => simp
  | cons r rest ih =>
    rw [List.foldl_cons, ih, GroupSet.mem_set]
    constructor
    · rintro ((h | h) | ⟨r2, hr2, h⟩)
      · exact Or.inl h
      · exact Or.inr ⟨r, List.mem_cons_self _ _, h.symm⟩
      · exact Or.inr ⟨r2, List.mem_cons_of_mem _ hr2, h⟩
    · rintro (h | ⟨r2, hr2, h⟩)
      · exact Or.inl (Or.inl h)
      · rcases List.mem_cons.mp hr2 with h2 | h2
        · exact Or.inl (Or.inr (by rw [← h, h2]))
        · exact Or.inr ⟨r2, h2, h⟩

/-- C6: group uniqueness. Whatever the order in which the run time ranges over
the map, the list returned by `ResourceGroups` has no duplicates, and a string
occurs in it if and only if it is the `Group` of some element of `Resources`. -/
theorem ResourceGroups_unique (rangeOrder : GroupSet → List String)
    (hrange : RangesOverKeys rangeOrder) (pf : ProjectFile) :
    (pf.ResourceGroups rangeOrder).Nodup
    ∧ ∀ g : String, g ∈ pf.ResourceGroups rangeOrder ↔ ∃ r ∈ pf.Resources, r.Group = g := by
  have hperm := hrange (pf.Resources.foldl (fun m r => m.set r.Group) [])
  simp only [ProjectFile.ResourceGroups, foldl_append_keys, List.nil_append]
  refine ⟨hperm.nodup_iff.mpr (fill_nodup _ _ List.nodup_nil), fun g => ?_⟩
  rw [hperm.mem_iff, mem_fill]
  simp

/-- C6 on a project file with three resources in two groups, the run time
ranging over the map from the last key to the first: the result is
`batch`, `apps`. -/
theorem ResourceGroups_unique_witness :
    sample.twoGroups.ResourceGroups List.reverse = ["batch", "apps"]
    ∧ (sample.twoGroups.ResourceGroups List.reverse).Nodup
    ∧ ∀ g : String, g ∈ sample.twoGroups.ResourceGroups List.reverse
        ↔ ∃ r ∈ sample.twoGroups.Resources, r.Group = g :=
  ⟨by decide, ResourceGroups_unique List.reverse (fun m => List.reverse_perm m) sample.twoGroups⟩

/-- C7: for a project file whose `Resources` list is empty, `ResourceGroups`
returns the empty list, whatever the order in which the run time ranges over
the map (the function is total: there is no failing case). -/
theorem ResourceGroups_empty (rangeOrder : GroupSet → List String)
    (hrange : RangesOverKeys rangeOrder) (pf : ProjectFile) (hempty : pf.Resources = []) :
    pf.ResourceGroups rangeOrder = [] := by
  have hperm := hrange []
  simp only [ProjectFile.ResourceGroups, foldl_append_keys, List.nil_append, hempty,
    List.foldl_nil]
  exact List.perm_nil.mp hperm

/-- C7 on a project file without resources. -/
theorem ResourceGroups_empty_witness :
    sample.noResources.ResourceGroups List.reverse = [] :=
  ResourceGroups_empty List.reverse (fun m => List.reverse_perm m) sample.noResources rfl

end input

/-! ## The admission-webhook builder -/

namespace webhook

open AdmissionWebhookBuilder

/-- On a builder whose `Resource` is not nil `GetInput` returns, and this is
what it leaves behind, every field given from the values before the call. -/
theorem GetInput_eq (pkg : Package) (f : AdmissionWebhookBuilder) (res : resource.Resource)
    (hres : f.Resource = some res) :
    f.GetInput pkg = some
      { receiver :=
          { f with
            Path :=
              if f.Path = "" then
                filepath.Join ["pkg", "webhook", f.Server ++ "_server",
                    strings.ToLower pkg.unicode res.Kind,
                  strings.ToLower pkg.unicode f.Type_,
                      strings.Join f.Operations "_" ++ "_webhook.go"]
              else f.Path
            TemplateBody := admissionWebhookBuilderTemplate
            Type_ := strings.ToLower pkg.unicode f.Type_
            ResourcePackage := pkg.getResourceInfo pkg.coreGroups res f.toInput
            BuilderName :=
              pkg.builderName
                { Server := f.Server, Type_ := strings.ToLower pkg.unicode f.Type_,
                  Operations := f.Operations }
                (strings.ToLower pkg.unicode res.Kind)
            OperationsParameterString :=
              strings.Join
                (f.Operations.map fun op => "admissionregistrationv1beta1." ++ strings.Title pkg.unicode op)
                ", "
            Mutating := if f.Type_ = "mutating" then true else f.Mutating }
        ret :=
          { f.toInput with
            Path :=
              if f.Path = "" then
                filepath.Join ["pkg", "webhook", f.Server ++ "_server",
                    strings.ToLower pkg.unicode res.Kind,
                  strings.ToLower pkg.unicode f.Type_,
                      strings.Join f.Operations "_" ++ "_webhook.go"]
              else f.Path
            TemplateBody := admissionWebhookBuilderTemplate }
        err := none } := by
  simp only [GetInput, hres]
  by_cases hT : f.Type_ = "mutating" <;> by_cases hP : f.Path = "" <;> simp [hT, hP]

/-- C8: path synthesis. On a builder with a non-nil `Resource` and an empty
`Path`, `GetInput` returns, and the `Path` of the builder and of the returned
`Input` is `filepath.Join` of `pkg`, `webhook`, `Server` followed by `_server`,
the lower-cased kind, the lower-cased type and the operations joined with `_`
followed by `_webhook.go`; for server `default`, kind `Foo`, type `mutating`
and operations `create`, `update` it is
`pkg/webhook/default_server/foo/mutating/create_update_webhook.go`. -/
theorem GetInput_path_synthesis (pkg : Package) (f : AdmissionWebhookBuilder)
    (res : resource.Resource) (hres : f.Resource = some res) (hpath : f.Path = "") :
    ∃ r : GetInputResult, f.GetInput pkg = some r
      ∧ r.receiver.Path
          = filepath.Join ["pkg", "webhook", f.Server ++ "_server",
              strings.ToLower pkg.unicode res.Kind,
              strings.ToLower pkg.unicode f.Type_, strings.Join f.Operations "_" ++ "_webhook.go"]
      ∧ r.ret.Path = r.receiver.Path
      ∧ (f.Server = "default" → res.Kind = "Foo" → f.Type_ = "mutating"
          → f.Operations = ["create", "update"]
          → r.receiver.Path = "pkg/webhook/default_server/foo/mutating/create_update_webhook.go")
      := by
  refine ⟨_, GetInput_eq pkg f res hres, ?_, ?_, ?_⟩
  · simp only [hpath, if_true]
  · simp only [hpath, if_true]
  · intro hs hk ht ho
    simp only [hpath, if_true, hs, hk, ht, ho]
    rfl

/-- C8 on the builder of the scenario: server `default`, kind `Foo`, type
`mutating`, operations `create` and `update`. -/
theorem GetInput_path_synthesis_witness :
    ∃ r : GetInputResult,
      (sample.builder "default" "Foo" "mutating" ["create", "update"]).GetInput
          sample.stubPackage = some r
      ∧ r.receiver.Path = "pkg/webhook/default_server/foo/mutating/create_update_webhook.go"
      ∧ r.ret.Path = "pkg/webhook/default_server/foo/mutating/create_update_webhook.go" := by
  obtain ⟨r, hr, _, hret, hscenario⟩ :=
    GetInput_path_synthesis sample.stubPackage
      (sample.builder "default" "Foo" "mutating" ["create", "update"]) ⟨"apps", "v1", "Foo"⟩
      rfl rfl
  have hp := hscenario rfl rfl rfl rfl
  exact ⟨r, hr, hp, hret.trans hp⟩

/-- C10: operation mode closure. On a builder with a non-nil `Resource` whose
`Mutating` flag is false before the call, `GetInput` returns, and afterwards
the flag is true if and only if `Type` before the call was exactly the string
`mutating`; every other value leaves it false. -/
theorem GetInput_mutating_iff (pkg : Package) (f : AdmissionWebhookBuilder)
    (res : resource.Resource) (hres : f.Resource = some res) (hmut : f.Mutating = false) :
    ∃ r : GetInputResult, f.GetInput pkg = some r
      ∧ (r.receiver.Mutating = true ↔ f.Type_ = "mutating")
      ∧ (f.Type_ ≠ "mutating" → r.receiver.Mutating = false) := by
  refine ⟨_, GetInput_eq pkg f res hres, ?_, ?_⟩
  · by_cases hT : f.Type_ = "mutating" <;> simp [hT, hmut]
  · intro hT
    simp [hT, hmut]

/-- C10 on a builder of type `MUTATING`, which differs from `mutating` by case
only: the flag stays false, although the type is normalized to `mutating`. -/
theorem GetInput_mutating_iff_witness :
    ∃ r : GetInputResult,
      (sample.builder "default" "Foo" "MUTATING" ["create"]).GetInput sample.stubPackage = some r
      ∧ r.receiver.Mutating = false := by
  obtain ⟨r, hr, _, hfalse⟩ :=
    GetInput_mutating_iff sample.stubPackage (sample.builder "default" "Foo" "MUTATING" ["create"])
      ⟨"apps", "v1", "Foo"⟩ rfl rfl
  exact ⟨r, hr, hfalse (by decide)⟩

end webhook

namespace strings

/-- Two strings free of a rune, each followed by nothing or by that rune and
more, agree as wholes only if they agree part by part. -/
theorem append_sep_cancel (c : Char) :
    ∀ (a b x y : List Char), c ∉ a → c ∉ b → (x = [] ∨ ∃ t, x = c :: t)
      → (y = [] ∨ ∃ t, y = c :: t) → a ++ x = b ++ y → a = b ∧ x = y := by
  intro a
  induction a with
  | nil =>
    intro b x y _ hb hx hy h
    cases b with
    | nil => exact ⟨rfl, by simpa using h⟩
    | cons hd tl =>
      exfalso
      rcases hx with hx | ⟨t, hx⟩
      · subst hx; simp at h
      · subst hx
        simp only [List.nil_append, List.cons_append, List.cons.injEq] at h
        exact hb (h.1 ▸ List.mem_cons_self _ _)
  | cons hd tl ih =>
    intro b x y ha hb hx hy h
    cases b with
    | nil =>
      exfalso
      rcases hy with hy | ⟨t, hy⟩
      · subst hy; simp at h
      · subst hy
        simp only [List.nil_append, List.cons_append, List.cons.injEq] at h
        exact ha (h.1 ▸ List.mem_cons_self _ _)
    | cons hd2 tl2 =>
      simp only [List.cons_append, List.cons.injEq] at h
      have ha2 : c ∉ tl := fun hm => ha (List.mem_cons_of_mem _ hm)
      have hb2 : c ∉ tl2 := fun hm => hb (List.mem_cons_of_mem _ hm)
      obtain ⟨h1, h2⟩ := ih tl2 x y ha2 hb2 hx hy h.2
      exact ⟨by rw [h.1, h1], h2⟩

/-- What follows the first element of a joined list: nothing, or the separator
and more. -/
theorem joinRunes_cons (c : Char) (a : List Char) (rest : List (List Char)) :
    ∃ x, strings.joinRunes [c] (a :: rest) = a ++ x ∧ (x = [] ∨ ∃ t, x = c :: t)
      ∧ (rest = [] → x = []) ∧ (rest ≠ [] → x = c :: strings.joinRunes [c] rest) := by
  cases rest with
  | nil => exact ⟨[], by simp [joinRunes], Or.inl rfl, fun _ => rfl, fun h => absurd rfl h⟩
  | cons b rest2 =>
    exact ⟨c :: joinRunes [c] (b :: rest2), by simp [joinRunes], Or.inr ⟨_, rfl⟩,
      fun h => by simp at h, fun _ => rfl⟩

/-- Joining with a one-rune separator loses nothing on lists of non-empty
elements free of that rune. -/
theorem joinRunes_injective (c : Char) :
    ∀ (l1 l2 : List (List Char)), (∀ e ∈ l1, e ≠ [] ∧ c ∉ e) → (∀ e ∈ l2, e ≠ [] ∧ c ∉ e)
      → joinRunes [c] l1 = joinRunes [c] l2 → l1 = l2 := by
  intro l1
  induction l1 with
  | nil =>
    intro l2 _ h2 h
    cases l2 with
    | nil => rfl
    | cons b rest =>
      exfalso
      obtain ⟨x, hx, _⟩ := joinRunes_cons c b rest
      rw [hx] at h
      simp only [joinRunes] at h
      have hb : b = [] := (List.append_eq_nil.mp h.symm).1
      exact (h2 b (List.mem_cons_self _ _)).1 hb
  | cons a rest ih =>
    intro l2 h1 h2 h
    cases l2 with
    | nil =>
      exfalso
      obtain ⟨x, hx, _⟩ := joinRunes_cons c a rest
      rw [hx] at h
      simp only [joinRunes] at h
      have ha : a = [] := (List.append_eq_nil.mp h).1
      exact (h1 a (List.mem_cons_self _ _)).1 ha
    | cons b rest2 =>
      obtain ⟨x, hx, hxs, hxn, hxc⟩ := joinRunes_cons c a rest
      obtain ⟨y, hy, hys, hyn, hyc⟩ := joinRunes_cons c b rest2
      rw [hx, hy] at h
      obtain ⟨hab, hxy⟩ := append_sep_cancel c a b x y (h1 a (List.mem_cons_self _ _)).2
        (h2 b (List.mem_cons_self _ _)).2 hxs hys h
      have h1r : ∀ e ∈ rest, e ≠ [] ∧ c ∉ e := fun e he => h1 e (List.mem_cons_of_mem _ he)
      have h2r : ∀ e ∈ rest2, e ≠ [] ∧ c ∉ e := fun e he => h2 e (List.mem_cons_of_mem _ he)
      have hrest : joinRunes [c] rest = joinRunes [c] rest2 := by
        by_cases hr : rest = []
        · by_cases hr2 : rest2 = []
          · rw [hr, hr2]
          · rw [hxn hr, hyc hr2] at hxy
            simp at hxy
        · by_cases hr2 : rest2 = []
          · rw [hxc hr, hyn hr2] at hxy
            simp at hxy
          · rw [hxc hr, hyc hr2] at hxy
            simpa using hxy
      rw [hab, ih rest2 h1r h2r hrest]

/-- A rune that occurs neither in the separator nor in any element does not
occur in the joined list. -/
theorem not_mem_joinRunes (c : Char) (sep : List Char) (hsep : c ∉ sep) :
    ∀ l : List (List Char), (∀ e ∈ l, c ∉ e) → c ∉ joinRunes sep l
  | [], _ => by simp [joinRunes]
  | [a], h => by simpa [joinRunes] using h a (List.mem_singleton_self a)
  | a :: b :: rest, h => by
    have ih := not_mem_joinRunes c sep hsep (b :: rest)
      (fun e he => h e (List.mem_cons_of_mem _ he))
    have ha := h a (List.mem_cons_self _ _)
    simp only [joinRunes, List.mem_append, not_or]
    exact ⟨ha, hsep, ih⟩

end strings

namespace filepath

/-- A path is cut into at least one element. -/
theorem splitSep_ne_nil : ∀ p : List Char, splitSep p ≠ []
  | [] => by simp [splitSep]
  | c :: cs => by
    unfold splitSep
    split_ifs
    · simp
    · split <;> simp

/-- A rune other than the separator joins the first element of what follows. -/
theorem splitSep_cons (c : Char) (cs e : List Char) (es : List (List Char)) (hc : c ≠ '/')
    (h : splitSep cs = e :: es) : splitSep (c :: cs) = (c :: e) :: es := by
  simp [splitSep, hc, h]

/-- A path without separator is one element. -/
theorem splitSep_plain : ∀ a : List Char, '/' ∉ a → splitSep a = [a]
  | [], _ => rfl
  | c :: cs, h => by
    have hc : c ≠ '/' := fun hc => h (hc ▸ List.mem_cons_self _ _)
    have hcs : '/' ∉ cs := fun hm => h (List.mem_cons_of_mem _ hm)
    exact splitSep_cons c cs cs [] hc (splitSep_plain cs hcs)

/-- A separator ends the first element. -/
theorem splitSep_append : ∀ (a rest : List Char), '/' ∉ a →
    splitSep (a ++ '/' :: rest) = a :: splitSep rest
  | [], rest, _ => by simp [splitSep]
  | c :: cs, rest, h => by
    have hc : c ≠ '/' := fun hc => h (hc ▸ List.mem_cons_self _ _)
    have hcs : '/' ∉ cs := fun hm => h (List.mem_cons_of_mem _ hm)
    rw [List.cons_append]
    exact splitSep_cons c _ cs _ hc (splitSep_append cs rest hcs)

/-- Cutting a path joined from elements without separator gives the elements back. -/
theorem splitSep_joinRunes : ∀ es : List (List Char), es ≠ [] → (∀ e ∈ es, '/' ∉ e) →
    splitSep (strings.joinRunes ['/'] es) = es
  | [], h, _ => absurd rfl h
  | [a], _, h => by
    simpa [strings.joinRunes] using splitSep_plain a (h a (List.mem_singleton_self a))
  | a :: b :: rest, _, h => by
    have ih := splitSep_joinRunes (b :: rest) (by simp)
      (fun e he => h e (List.mem_cons_of_mem _ he))
    have ha := h a (List.mem_cons_self _ _)
    simp only [strings.joinRunes, List.singleton_append]
    rw [splitSep_append a _ ha, ih]

/-- Elements that are neither empty nor `.` nor `..` are all kept by `Clean`. -/
theorem foldl_cleanStep_plain (rooted : Bool) :
    ∀ (es out : List (List Char)), (∀ e ∈ es, e ≠ [] ∧ e ≠ ['.'] ∧ e ≠ ['.', '.']) →
      es.foldl (cleanStep rooted) out = es.reverse ++ out
  | [], out, _ => by simp
  | e :: rest, out, h => by
    obtain ⟨h1, h2, h3⟩ := h e (List.mem_cons_self _ _)
    have ih := foldl_cleanStep_plain rooted rest (e :: out)
      (fun e2 he2 => h e2 (List.mem_cons_of_mem _ he2))
    have hstep : cleanStep rooted out e = e :: out := by
      unfold cleanStep
      rw [if_neg (by simp [h1, h2]), if_neg h3]
    rw [List.foldl_cons, hstep, ih]
    simp

/-- A relative path of elements that are not empty, not `.`, not `..` and
without separator is already clean. -/
theorem Clean_plain (e : List Char) (es : List (List Char))
    (h : ∀ x ∈ e :: es, x ≠ [] ∧ x ≠ ['.'] ∧ x ≠ ['.', '.'] ∧ '/' ∉ x) :
    Clean ⟨strings.joinRunes ['/'] (e :: es)⟩ = ⟨strings.joinRunes ['/'] (e :: es)⟩ := by
  obtain ⟨he1, _, _, he4⟩ := h e (List.mem_cons_self _ _)
  obtain ⟨x, hx, _⟩ := strings.joinRunes_cons '/' e es
  obtain ⟨c, tl, hctl⟩ := List.exists_cons_of_ne_nil he1
  have hc : c ≠ '/' := fun hc => he4 (by rw [hctl, hc]; exact List.mem_cons_self _ _)
  have hne : (⟨strings.joinRunes ['/'] (e :: es)⟩ : String) ≠ "" := by
    intro hcontra
    have hd : strings.joinRunes ['/'] (e :: es) = [] := congrArg String.data hcontra
    rw [hx, hctl] at hd
    simp at hd
  have hhead : (strings.joinRunes ['/'] (e :: es)).head? ≠ some '/' := by
    rw [hx, hctl]
    simpa using hc
  have hsplit := splitSep_joinRunes (e :: es) (by simp) (fun y hy => (h y hy).2.2.2)
  have hfold := foldl_cleanStep_plain false (e :: es) []
    (fun y hy => ⟨(h y hy).1, (h y hy).2.1, (h y hy).2.2.1⟩)
  unfold Clean
  rw [if_neg hne]
  simp only [hsplit, decide_eq_true_eq, hhead, decide_False, hfold]
  simp

end filepath

namespace filepath

/-- A string is empty exactly if it has no rune. -/
theorem data_ne_nil (s : String) (h : s ≠ "") : s.data ≠ [] :=
  fun hd => h (String.ext hd)

/-- On a first element and further elements that are all not empty, not `.`,
not `..` and without separator, `filepath.Join` is `strings.Join` with the
separator: nothing is dropped and nothing is cleaned away. -/
theorem Join_plain (e : String) (es : List String)
    (h : ∀ x ∈ e :: es, x ≠ "" ∧ x ≠ "." ∧ x ≠ ".." ∧ '/' ∉ x.data) :
    Join (e :: es) = strings.Join (e :: es) "/" := by
  have he : e ≠ "" := (h e (List.mem_cons_self _ _)).1
  have hdata : ∀ y ∈ e.data :: es.map String.data,
      y ≠ [] ∧ y ≠ ['.'] ∧ y ≠ ['.', '.'] ∧ '/' ∉ y := by
    intro y hy
    have hy2 : y ∈ (e :: es).map String.data := by simpa using hy
    obtain ⟨x, hx, rfl⟩ := List.mem_map.mp hy2
    obtain ⟨h1, h2, h3, h4⟩ := h x hx
    exact ⟨data_ne_nil x h1, fun hd => h2 (String.ext hd), fun hd => h3 (String.ext hd), h4⟩
  have hclean := Clean_plain e.data (es.map String.data) hdata
  simp only [Join, List.dropWhile_cons, he, decide_False, Bool.false_eq_true, if_false,
    strings.Join, List.map_cons]
  exact hclean

end filepath

namespace webhook

open AdmissionWebhookBuilder

/-- A string without separator followed by a suffix of three or more runes
without separator is a plain path element. -/
theorem PlainElement_append (s suffix : String) (hs : '/' ∉ s.data) (hsuffix : '/' ∉ suffix.data)
    (hlen : 3 ≤ suffix.data.length) : PlainElement (s ++ suffix) := by
  have hl : 3 ≤ (s ++ suffix).data.length := by
    rw [String.data_append, List.length_append]
    omega
  refine ⟨?_, ?_, ?_, ?_⟩
  · intro hc
    rw [hc] at hl
    simp at hl
  · intro hc
    rw [hc] at hl
    simp at hl
  · intro hc
    rw [hc] at hl
    simp at hl
  · rw [String.data_append, List.mem_append, not_or]
    exact ⟨hs, hsuffix⟩

/-- The operations joined with `_` contain no separator if no operation does. -/
theorem not_mem_Join_operations (ops : List String) (h : ∀ op ∈ ops, PlainOperation op) :
    '/' ∉ (strings.Join ops "_").data := by
  apply strings.not_mem_joinRunes '/' "_".data (by decide)
  intro e he
  obtain ⟨op, hop, rfl⟩ := List.mem_map.mp he
  exact (h op hop).2.2

/-- Plain operations can be read back from their join with `_`. -/
theorem Join_operations_injective (ops1 ops2 : List String)
    (h1 : ∀ op ∈ ops1, PlainOperation op) (h2 : ∀ op ∈ ops2, PlainOperation op)
    (h : strings.Join ops1 "_" = strings.Join ops2 "_") : ops1 = ops2 := by
  have hd : strings.joinRunes ['_'] (ops1.map String.data)
      = strings.joinRunes ['_'] (ops2.map String.data) := congrArg String.data h
  have hplain : ∀ ops : List String, (∀ op ∈ ops, PlainOperation op) →
      ∀ e ∈ ops.map String.data, e ≠ [] ∧ '_' ∉ e := by
    intro ops hops e he
    obtain ⟨op, hop, rfl⟩ := List.mem_map.mp he
    exact ⟨filepath.data_ne_nil op (hops op hop).1, (hops op hop).2.1⟩
  have hmap := strings.joinRunes_injective '_' _ _ (hplain ops1 h1) (hplain ops2 h2) hd
  exact List.map_injective_iff.mpr (fun a b hab => String.ext hab) hmap

/-- Under the condition `PlainTuple` the synthesized path is the six elements
with a separator between them. -/
theorem synthesized_path_plain (server kind type : String) (operations : List String)
    (h : PlainTuple server kind type operations) :
    filepath.Join ["pkg", "webhook", server ++ "_server", kind, type,
        strings.Join operations "_" ++ "_webhook.go"]
      = strings.Join ["pkg", "webhook", server ++ "_server", kind, type,
        strings.Join operations "_" ++ "_webhook.go"] "/" := by
  obtain ⟨hs, hk, ht, ho⟩ := h
  apply filepath.Join_plain
  intro x hx
  simp only [List.mem_cons, List.mem_singleton, List.not_mem_nil, or_false] at hx
  rcases hx with rfl | rfl | rfl | rfl | rfl | rfl
  · decide
  · decide
  · exact PlainElement_append server "_server" hs (by decide) (by decide)
  · exact hk
  · exact ht
  · exact PlainElement_append _ "_webhook.go" (not_mem_Join_operations operations ho)
      (by decide) (by decide)

/-- Under the condition `PlainTuple` the four components can be read back from
the synthesized path. -/
theorem synthesized_path_injective (s1 k1 t1 s2 k2 t2 : String) (o1 o2 : List String)
    (h1 : PlainTuple s1 k1 t1 o1) (h2 : PlainTuple s2 k2 t2 o2)
    (h : filepath.Join ["pkg", "webhook", s1 ++ "_server", k1, t1,
          strings.Join o1 "_" ++ "_webhook.go"]
        = filepath.Join ["pkg", "webhook", s2 ++ "_server", k2, t2,
          strings.Join o2 "_" ++ "_webhook.go"]) :
    s1 = s2 ∧ k1 = k2 ∧ t1 = t2 ∧ o1 = o2 := by
  rw [synthesized_path_plain s1 k1 t1 o1 h1, synthesized_path_plain s2 k2 t2 o2 h2] at h
  have hd : strings.joinRunes ['/']
      (["pkg", "webhook", s1 ++ "_server", k1, t1,
        strings.Join o1 "_" ++ "_webhook.go"].map String.data)
      = strings.joinRunes ['/']
      (["pkg", "webhook", s2 ++ "_server", k2, t2,
        strings.Join o2 "_" ++ "_webhook.go"].map String.data) := congrArg String.data h
  have hplain : ∀ (s k t : String) (o : List String), PlainTuple s k t o →
      ∀ e ∈ ["pkg", "webhook", s ++ "_server", k, t,
        strings.Join o "_" ++ "_webhook.go"].map String.data, e ≠ [] ∧ '/' ∉ e := by
    intro s k t o hp e he
    obtain ⟨hs, hk, ht, ho⟩ := hp
    have hsrv := PlainElement_append s "_server" hs (by decide) (by decide)
    have hfile := PlainElement_append _ "_webhook.go" (not_mem_Join_operations o ho)
      (by decide) (by decide)
    simp only [List.map_cons, List.map_nil, List.mem_cons, List.mem_singleton,
      List.not_mem_nil, or_false] at he
    rcases he with rfl | rfl | rfl | rfl | rfl | rfl
    · decide
    · decide
    · exact ⟨filepath.data_ne_nil _ hsrv.1, hsrv.2.2.2⟩
    · exact ⟨filepath.data_ne_nil _ hk.1, hk.2.2.2⟩
    · exact ⟨filepath.data_ne_nil _ ht.1, ht.2.2.2⟩
    · exact ⟨filepath.data_ne_nil _ hfile.1, hfile.2.2.2⟩
  have hlist := strings.joinRunes_injective '/' _ _ (hplain s1 k1 t1 o1 h1)
    (hplain s2 k2 t2 o2 h2) hd
  simp only [List.map_cons, List.map_nil, List.cons.injEq, String.data_append, and_true,
    true_and, List.append_left_inj] at hlist
  obtain ⟨hs, hk, ht, ho⟩ := hlist
  exact ⟨String.ext hs, String.ext hk, String.ext ht,
    Join_operations_injective o1 o2 h1.2.2.2 h2.2.2.2 (String.ext ho)⟩

end webhook

namespace webhook

open AdmissionWebhookBuilder

/-- C9, as stated, fails: two fresh builders that differ in their operations
only, the single operation `create_update` against the two operations `create`
and `update`, are given the same path. -/
theorem GetInput_path_collision :
    (sample.builder "default" "Foo" "mutating" ["create_update"]).Path = ""
    ∧ (sample.builder "default" "Foo" "mutating" ["create", "update"]).Path = ""
    ∧ (sample.builder "default" "Foo" "mutating" ["create_update"]).Resource
        = some ⟨"apps", "v1", "Foo"⟩
    ∧ (sample.builder "default" "Foo" "mutating" ["create", "update"]).Resource
        = some ⟨"apps", "v1", "Foo"⟩
    ∧ (sample.builder "default" "Foo" "mutating" ["create_update"]).Operations
        ≠ (sample.builder "default" "Foo" "mutating" ["create", "update"]).Operations
    ∧ ((sample.builder "default" "Foo" "mutating" ["create_update"]).GetInput
          sample.stubPackage).map (fun r => r.receiver.Path)
        = some "pkg/webhook/default_server/foo/mutating/create_update_webhook.go"
    ∧ ((sample.builder "default" "Foo" "mutating" ["create", "update"]).GetInput
          sample.stubPackage).map (fun r => r.receiver.Path)
        = some "pkg/webhook/default_server/foo/mutating/create_update_webhook.go" := by
  decide

/-- Further pairs of fresh builders with distinct tuples and one path: kinds
that differ by case only; types that differ by case only; no operation against
one empty operation; an empty kind against an empty type; a separator in the
kind against a separator in the type; a type `..` after different kinds; a
server name that climbs out of `pkg/webhook` and back. -/
theorem GetInput_path_collisions :
    ((sample.builder "default" "Foo" "mutating" ["create"]).GetInput sample.stubPackage).map
        (fun r => r.receiver.Path)
      = ((sample.builder "default" "foo" "mutating" ["create"]).GetInput sample.stubPackage).map
        (fun r => r.receiver.Path)
    ∧ ((sample.builder "default" "Foo" "Mutating" ["create"]).GetInput sample.stubPackage).map
        (fun r => r.receiver.Path)
      = ((sample.builder "default" "Foo" "mutating" ["create"]).GetInput sample.stubPackage).map
        (fun r => r.receiver.Path)
    ∧ ((sample.builder "default" "Foo" "mutating" []).GetInput sample.stubPackage).map
        (fun r => r.receiver.Path)
      = ((sample.builder "default" "Foo" "mutating" [""]).GetInput sample.stubPackage).map
        (fun r => r.receiver.Path)
    ∧ ((sample.builder "default" "" "x" ["create"]).GetInput sample.stubPackage).map
        (fun r => r.receiver.Path)
      = ((sample.builder "default" "x" "" ["create"]).GetInput sample.stubPackage).map
        (fun r => r.receiver.Path)
    ∧ ((sample.builder "default" "a/b" "c" ["create"]).GetInput sample.stubPackage).map
        (fun r => r.receiver.Path)
      = ((sample.builder "default" "a" "b/c" ["create"]).GetInput sample.stubPackage).map
        (fun r => r.receiver.Path)
    ∧ ((sample.builder "default" "a" ".." ["create"]).GetInput sample.stubPackage).map
        (fun r => r.receiver.Path)
      = ((sample.builder "default" "b" ".." ["create"]).GetInput sample.stubPackage).map
        (fun r => r.receiver.Path)
    ∧ ((sample.builder "../../pkg/webhook/default" "a" "x" ["create"]).GetInput
        sample.stubPackage).map (fun r => r.receiver.Path)
      = ((sample.builder "default" "a" "x" ["create"]).GetInput sample.stubPackage).map
        (fun r => r.receiver.Path) := by
  decide

/-- C9, amended: for two builders with an empty `Path` and a non-nil `Resource`
whose server name contains no separator, whose lower-cased kind and lower-cased
type are not empty, not `.`, not `..` and contain no separator, and whose
operations are all non-empty and contain neither `_` nor the separator: if the
tuples of server name, lower-cased kind, lower-cased type and operations
differ, `GetInput` returns on both and the synthesized paths differ. -/
theorem GetInput_path_collision_free (pkg : Package) (f1 f2 : AdmissionWebhookBuilder)
    (res1 res2 : resource.Resource)
    (hres1 : f1.Resource = some res1) (hres2 : f2.Resource = some res2)
    (hpath1 : f1.Path = "") (hpath2 : f2.Path = "")
    (hplain1 : PlainTuple f1.Server (strings.ToLower pkg.unicode res1.Kind)
        (strings.ToLower pkg.unicode f1.Type_)
      f1.Operations)
    (hplain2 : PlainTuple f2.Server (strings.ToLower pkg.unicode res2.Kind)
        (strings.ToLower pkg.unicode f2.Type_)
      f2.Operations)
    (hdiff : (f1.Server, strings.ToLower pkg.unicode res1.Kind,
        strings.ToLower pkg.unicode f1.Type_, f1.Operations)
      ≠ (f2.Server, strings.ToLower pkg.unicode res2.Kind, strings.ToLower pkg.unicode f2.Type_,
          f2.Operations)) :
    ∃ r1 r2 : GetInputResult, f1.GetInput pkg = some r1 ∧ f2.GetInput pkg = some r2
      ∧ r1.receiver.Path ≠ r2.receiver.Path ∧ r1.ret.Path ≠ r2.ret.Path := by
  have key : filepath.Join ["pkg", "webhook", f1.Server ++ "_server",
      strings.ToLower pkg.unicode res1.Kind,
        strings.ToLower pkg.unicode f1.Type_, strings.Join f1.Operations "_" ++ "_webhook.go"]
      ≠ filepath.Join ["pkg", "webhook", f2.Server ++ "_server",
          strings.ToLower pkg.unicode res2.Kind,
        strings.ToLower pkg.unicode f2.Type_, strings.Join f2.Operations "_" ++ "_webhook.go"] := by
    intro h
    obtain ⟨hs, hk, ht, ho⟩ := synthesized_path_injective _ _ _ _ _ _ _ _ hplain1 hplain2 h
    exact hdiff (by rw [hs, hk, ht, ho])
  refine ⟨_, _, GetInput_eq pkg f1 res1 hres1, GetInput_eq pkg f2 res2 hres2, ?_, ?_⟩
  · simpa only [hpath1, hpath2, if_true] using key
  · simpa only [hpath1, hpath2, if_true] using key

/-- C9, amended, on two fresh builders that differ in the case of the type and
in one operation: the paths end in `create_webhook.go` and `update_webhook.go`. -/
theorem GetInput_path_collision_free_witness :
    ∃ r1 r2 : GetInputResult,
      (sample.builder "default" "Foo" "Mutating" ["create"]).GetInput sample.stubPackage = some r1
      ∧ (sample.builder "default" "Foo" "mutating" ["update"]).GetInput sample.stubPackage
          = some r2
      ∧ r1.receiver.Path ≠ r2.receiver.Path ∧ r1.ret.Path ≠ r2.ret.Path :=
  GetInput_path_collision_free sample.stubPackage
    (sample.builder "default" "Foo" "Mutating" ["create"])
    (sample.builder "default" "Foo" "mutating" ["update"])
    ⟨"apps", "v1", "Foo"⟩ ⟨"apps", "v1", "Foo"⟩ rfl rfl rfl rfl
    (by unfold PlainTuple PlainElement PlainOperation; decide)
    (by unfold PlainTuple PlainElement PlainOperation; decide)
    (by decide)

end webhook

namespace webhook

open AdmissionWebhookBuilder

/-- C12: the operations parameter string. On a builder with a non-nil
`Resource`, `GetInput` returns, and `OperationsParameterString` is then the
operations, each mapped in order to `admissionregistrationv1beta1.` followed by
the title-cased operation, joined with a comma and a space; for `create`,
`update` it is
`admissionregistrationv1beta1.Create, admissionregistrationv1beta1.Update`, and
for no operation it is the empty string. -/
theorem GetInput_operations_parameter (pkg : Package) (f : AdmissionWebhookBuilder)
    (res : resource.Resource) (hres : f.Resource = some res) :
    ∃ r : GetInputResult, f.GetInput pkg = some r
      ∧ r.receiver.OperationsParameterString
          = strings.Join
              (f.Operations.map fun op => "admissionregistrationv1beta1." ++ strings.Title pkg.unicode op)
              ", "
      ∧ (f.Operations = ["create", "update"]
          → r.receiver.OperationsParameterString
              = "admissionregistrationv1beta1.Create, admissionregistrationv1beta1.Update")
      ∧ (f.Operations = [] → r.receiver.OperationsParameterString = "") := by
  refine ⟨_, GetInput_eq pkg f res hres, rfl, ?_, ?_⟩
  · intro ho
    simp only [ho]
    rfl
  · intro ho
    simp only [ho]
    rfl

/-- C12 on the builder of the scenario, with the operations `create` and
`update`. -/
theorem GetInput_operations_parameter_witness :
    ∃ r : GetInputResult,
      (sample.builder "default" "Foo" "mutating" ["create", "update"]).GetInput
          sample.stubPackage = some r
      ∧ r.receiver.OperationsParameterString
          = "admissionregistrationv1beta1.Create, admissionregistrationv1beta1.Update" := by
  obtain ⟨r, hr, _, hscenario, _⟩ :=
    GetInput_operations_parameter sample.stubPackage
      (sample.builder "default" "Foo" "mutating" ["create", "update"]) ⟨"apps", "v1", "Foo"⟩ rfl
  exact ⟨r, hr, hscenario rfl⟩

/-- C13: a pre-set output path is respected. On a builder with a non-nil
`Resource` whose `Path` is not empty before the call, `GetInput` returns,
leaves `Path` as it was and returns an `Input` with that same `Path`, whatever
the server name, the kind, the type and the operations are. -/
theorem GetInput_keeps_preset_path (pkg : Package) (f : AdmissionWebhookBuilder)
    (res : resource.Resource) (hres : f.Resource = some res) (hpath : f.Path ≠ "") :
    ∃ r : GetInputResult, f.GetInput pkg = some r
      ∧ r.receiver.Path = f.Path ∧ r.ret.Path = f.Path := by
  refine ⟨_, GetInput_eq pkg f res hres, ?_, ?_⟩
  · simp only [hpath, if_false]
  · simp only [hpath, if_false]

/-- C13 on the builder of the scenario with the path `hack/webhook.go` set
beforehand. -/
theorem GetInput_keeps_preset_path_witness :
    ∃ r : GetInputResult,
      ({ sample.builder "default" "Foo" "mutating" ["create", "update"] with
          Path := "hack/webhook.go" }).GetInput sample.stubPackage = some r
      ∧ r.receiver.Path = "hack/webhook.go" ∧ r.ret.Path = "hack/webhook.go" :=
  GetInput_keeps_preset_path sample.stubPackage
    { sample.builder "default" "Foo" "mutating" ["create", "update"] with
      Path := "hack/webhook.go" }
    ⟨"apps", "v1", "Foo"⟩ rfl (by decide)

/-- C14: the builder raises no error. On a builder with a non-nil `Resource`,
whatever the type, the server name and the operations are, `GetInput` returns a
nil error and an `Input` whose `TemplateBody` is the constant
`admissionWebhookBuilderTemplate`. -/
theorem GetInput_no_error (pkg : Package) (f : AdmissionWebhookBuilder)
    (res : resource.Resource) (hres : f.Resource = some res) :
    ∃ r : GetInputResult, f.GetInput pkg = some r ∧ r.err = none
      ∧ r.ret.TemplateBody = admissionWebhookBuilderTemplate :=
  ⟨_, GetInput_eq pkg f res hres, rfl, rfl⟩

/-- C14 on a builder with a type that is not recognized and without operations. -/
theorem GetInput_no_error_witness :
    ∃ r : GetInputResult,
      (sample.builder "default" "Foo" "bogus" []).GetInput sample.stubPackage = some r
      ∧ r.err = none ∧ r.ret.TemplateBody = admissionWebhookBuilderTemplate :=
  GetInput_no_error sample.stubPackage (sample.builder "default" "Foo" "bogus" [])
    ⟨"apps", "v1", "Foo"⟩ rfl

/-- C16: `GetInput` touches only the fields it derives. On a builder with a
non-nil `Resource` the call returns and leaves `IfExistsAction`, `Boilerplate`,
`BoilerplatePath`, `Version`, `Domain`, `Repo`, `ProjectPath` and `MultiGroup`
of the embedded `Input` and `Resource`, `Server` and `Operations` of the
builder as they were; the returned `Input` is the embedded `Input` of the
builder after the call. -/
theorem GetInput_frame (pkg : Package) (f : AdmissionWebhookBuilder)
    (res : resource.Resource) (hres : f.Resource = some res) :
    ∃ r : GetInputResult, f.GetInput pkg = some r
      ∧ r.receiver.IfExistsAction = f.IfExistsAction
      ∧ r.receiver.Boilerplate = f.Boilerplate
      ∧ r.receiver.BoilerplatePath = f.BoilerplatePath
      ∧ r.receiver.Version = f.Version
      ∧ r.receiver.Domain = f.Domain
      ∧ r.receiver.Repo = f.Repo
      ∧ r.receiver.ProjectPath = f.ProjectPath
      ∧ r.receiver.MultiGroup = f.MultiGroup
      ∧ r.receiver.Resource = f.Resource
      ∧ r.receiver.Server = f.Server
      ∧ r.receiver.Operations = f.Operations
      ∧ r.ret = r.receiver.toInput :=
  ⟨_, GetInput_eq pkg f res hres, rfl, rfl, rfl, rfl, rfl, rfl, rfl, rfl, rfl, rfl, rfl, rfl⟩

/-- C16 on a builder whose embedded `Input` has all its fields set. -/
theorem GetInput_frame_witness :
    ∃ r : GetInputResult,
      ({ sample.builder "default" "Foo" "mutating" ["create"] with
          toInput := sample.filledInput }).GetInput sample.stubPackage = some r
      ∧ r.receiver.IfExistsAction = input.IfExistsAction.Error
      ∧ r.receiver.Boilerplate = "// header"
      ∧ r.receiver.BoilerplatePath = "hack/boilerplate.go.txt"
      ∧ r.receiver.Version = "2"
      ∧ r.receiver.Domain = "example.com"
      ∧ r.receiver.Repo = "github.com/acme/proj"
      ∧ r.receiver.ProjectPath = ".."
      ∧ r.receiver.MultiGroup = false
      ∧ r.receiver.Resource = some ⟨"apps", "v1", "Foo"⟩
      ∧ r.receiver.Server = "default"
      ∧ r.receiver.Operations = ["create"]
      ∧ r.ret = r.receiver.toInput :=
  GetInput_frame sample.stubPackage
    { sample.builder "default" "Foo" "mutating" ["create"] with toInput := sample.filledInput }
    ⟨"apps", "v1", "Foo"⟩ rfl

end webhook

namespace filepath

/-- Cutting a path at a separator: the elements before it, then the elements
after it. -/
theorem splitSep_append_sep : ∀ (a b : List Char),
    splitSep (a ++ '/' :: b) = splitSep a ++ splitSep b
  | [], b => by simp [splitSep]
  | c :: cs, b => by
    have ih := splitSep_append_sep cs b
    by_cases hc : c = '/'
    · subst hc
      simp [splitSep, ih]
    · obtain ⟨e, es, hes⟩ := List.exists_cons_of_ne_nil (splitSep_ne_nil cs)
      rw [List.cons_append, splitSep_cons c cs e es hc hes,
        splitSep_cons c (cs ++ '/' :: b) e (es ++ splitSep b) hc (by rw [ih, hes]; rfl)]
      rfl

/-- No element of a cut path contains the separator. -/
theorem not_mem_of_mem_splitSep : ∀ (p : List Char), ∀ e ∈ splitSep p, '/' ∉ e
  | [], e, he => by
    simp only [splitSep, List.mem_singleton] at he
    simp [he]
  | c :: cs, e, he => by
    have ih := not_mem_of_mem_splitSep cs
    by_cases hc : c = '/'
    · subst hc
      simp only [splitSep, if_true, List.mem_cons] at he
      rcases he with he | he
      · simp [he]
      · exact ih e he
    · obtain ⟨e2, es, hes⟩ := List.exists_cons_of_ne_nil (splitSep_ne_nil cs)
      rw [splitSep_cons c cs e2 es hc hes, List.mem_cons] at he
      rcases he with he | he
      · subst he
        intro hm
        rcases List.mem_cons.mp hm with h | h
        · exact hc h.symm
        · exact ih e2 (by rw [hes]; exact List.mem_cons_self _ _) h
      · exact ih e (by rw [hes]; exact List.mem_cons_of_mem _ he)

/-- An element that is not empty, not `.` and not `..` is kept by `Clean`. -/
theorem cleanStep_plain (rooted : Bool) (out : List (List Char)) (e : List Char)
    (h1 : e ≠ []) (h2 : e ≠ ['.']) (h3 : e ≠ ['.', '.']) : cleanStep rooted out e = e :: out := by
  unfold cleanStep
  rw [if_neg (by simp [h1, h2]), if_neg h3]

/-- One step of `Clean` keeps only elements that are not empty and contain no
separator, if the element it meets contains none. -/
theorem cleanStep_elements (rooted : Bool) (out : List (List Char)) (x : List Char)
    (hout : ∀ e ∈ out, e ≠ [] ∧ '/' ∉ e) (hx : '/' ∉ x) :
    ∀ e ∈ cleanStep rooted out x, e ≠ [] ∧ '/' ∉ e := by
  have hpush : x ≠ [] → ∀ e ∈ x :: out, e ≠ [] ∧ '/' ∉ e := by
    intro hne e he
    rcases List.mem_cons.mp he with he | he
    · exact he ▸ ⟨hne, hx⟩
    · exact hout e he
  unfold cleanStep
  by_cases h1 : x = [] ∨ x = ['.']
  · rw [if_pos h1]
    exact hout
  · rw [if_neg h1]
    have hne : x ≠ [] := fun h => h1 (Or.inl h)
    by_cases h2 : x = ['.', '.']
    · rw [if_pos h2]
      cases out with
      | nil =>
        cases rooted
        · simpa using hpush hne
        · simp
      | cons top below =>
        by_cases h3 : top = ['.', '.']
        · cases rooted
          · simpa [h3] using hpush hne
          · simpa [h3] using hout
        · simp only [h3, if_false]
          exact fun e he => hout e (List.mem_cons_of_mem _ he)
    · rw [if_neg h2]
      exact hpush hne

/-- What `Clean` keeps of elements without separator: elements that are not
empty and contain no separator. -/
theorem foldl_cleanStep_elements (rooted : Bool) :
    ∀ (es out : List (List Char)), (∀ e ∈ out, e ≠ [] ∧ '/' ∉ e) → (∀ e ∈ es, '/' ∉ e) →
      ∀ e ∈ es.foldl (cleanStep rooted) out, e ≠ [] ∧ '/' ∉ e
  | [], out, hout, _ => by simpa using hout
  | x :: rest, out, hout, hes => by
    rw [List.foldl_cons]
    exact foldl_cleanStep_elements rooted rest (cleanStep rooted out x)
      (cleanStep_elements rooted out x hout (hes x (List.mem_cons_self _ _)))
      (fun e he => hes e (List.mem_cons_of_mem _ he))

/-- A relative path that ends in an element without separator and a last
element that is not empty, not `.`, not `..` and without separator: `Clean`
keeps the last element, after what one further step makes of the part before
the two. -/
theorem Clean_ends (c : Char) (pre x last : List Char) (hc : c ≠ '/') (hx : '/' ∉ x)
    (hlast : last ≠ [] ∧ last ≠ ['.'] ∧ last ≠ ['.', '.'] ∧ '/' ∉ last) :
    Clean ⟨c :: (pre ++ '/' :: (x ++ '/' :: last))⟩
      = ⟨strings.joinRunes ['/']
          ((cleanStep false ((splitSep (c :: pre)).foldl (cleanStep false) []) x).reverse
            ++ [last])⟩ := by
  have hne : (⟨c :: (pre ++ '/' :: (x ++ '/' :: last))⟩ : String) ≠ "" := by
    intro hcontra
    have hd : c :: (pre ++ '/' :: (x ++ '/' :: last)) = [] := congrArg String.data hcontra
    simp at hd
  have hsplit : splitSep (c :: (pre ++ '/' :: (x ++ '/' :: last)))
      = splitSep (c :: pre) ++ [x, last] := by
    show splitSep ((c :: pre) ++ '/' :: (x ++ '/' :: last)) = _
    rw [splitSep_append_sep, splitSep_append x last hx, splitSep_plain last hlast.2.2.2]
  have hfold : (splitSep (c :: pre) ++ [x, last]).foldl (cleanStep false) []
      = last :: cleanStep false ((splitSep (c :: pre)).foldl (cleanStep false) []) x := by
    rw [List.foldl_append, List.foldl_cons, List.foldl_cons, List.foldl_nil,
      cleanStep_plain false _ last hlast.1 hlast.2.1 hlast.2.2.1]
  unfold Clean
  rw [if_neg hne]
  simp only [hsplit, hfold, List.head?_cons, Option.some.injEq, hc, decide_False,
    Bool.false_eq_true, if_false, List.reverse_cons]
  rw [if_neg (by simp)]

/-- A step of `Clean` that leaves the kept elements with a plain element `y` on
top has met `y`. -/
theorem cleanStep_eq_cons (out : List (List Char)) (x y : List Char)
    (h : cleanStep false out x = y :: out) : x = y := by
  have hlen := congrArg List.length h
  unfold cleanStep at h hlen
  by_cases h1 : x = [] ∨ x = ['.']
  · rw [if_pos h1] at hlen
    simp at hlen
  · rw [if_neg h1] at h hlen
    by_cases h2 : x = ['.', '.']
    · rw [if_pos h2] at h hlen
      cases out with
      | nil =>
        simp only [Bool.false_eq_true, if_false, List.cons.injEq, and_true] at h
        exact h
      | cons top below =>
        by_cases h3 : top = ['.', '.']
        · simp only [h3, if_true, Bool.false_eq_true, if_false, List.cons.injEq, and_true]
            at h
          exact h
        · simp only [h3, if_false, List.length_cons] at hlen
          omega
    · rw [if_neg h2] at h
      exact (List.cons.inj h).1

/-- Two cleaned relative paths that agree before and after their last element
but one agree in that element too, when it contains no separator in the one
path and is a plain element in the other. -/
theorem Clean_ends_injective (c : Char) (pre x y last : List Char) (hc : c ≠ '/')
    (hx : '/' ∉ x) (hy : y ≠ [] ∧ y ≠ ['.'] ∧ y ≠ ['.', '.'] ∧ '/' ∉ y)
    (hlast : last ≠ [] ∧ last ≠ ['.'] ∧ last ≠ ['.', '.'] ∧ '/' ∉ last)
    (h : Clean ⟨c :: (pre ++ '/' :: (x ++ '/' :: last))⟩
      = Clean ⟨c :: (pre ++ '/' :: (y ++ '/' :: last))⟩) : x = y := by
  rw [Clean_ends c pre x last hc hx hlast, Clean_ends c pre y last hc hy.2.2.2 hlast,
    cleanStep_plain false _ y hy.1 hy.2.1 hy.2.2.1] at h
  have hd := congrArg String.data h
  simp only at hd
  have hkept := foldl_cleanStep_elements false (splitSep (c :: pre)) [] (by simp)
    (not_mem_of_mem_splitSep (c :: pre))
  have helems : ∀ l : List (List Char), (∀ e ∈ l, e ≠ [] ∧ '/' ∉ e) →
      ∀ e ∈ l.reverse ++ [last], e ≠ [] ∧ '/' ∉ e := by
    intro l hl e he
    simp only [List.mem_append, List.mem_reverse, List.mem_singleton] at he
    rcases he with he | rfl
    · exact hl e he
    · exact ⟨hlast.1, hlast.2.2.2⟩
  have hky : ∀ e ∈ y :: (splitSep (c :: pre)).foldl (cleanStep false) [],
      e ≠ [] ∧ '/' ∉ e := by
    intro e he
    rcases List.mem_cons.mp he with he | he
    · exact he ▸ ⟨hy.1, hy.2.2.2⟩
    · exact hkept e he
  have hlists := strings.joinRunes_injective '/' _ _
    (helems _ (cleanStep_elements false _ x hkept hx)) (helems _ hky) hd
  have hrev := List.append_cancel_right hlists
  exact cleanStep_eq_cons _ x y (List.reverse_injective hrev)

end filepath

namespace strings

end strings

namespace webhook

open AdmissionWebhookBuilder

end webhook

namespace filepath

end filepath

namespace webhook

open AdmissionWebhookBuilder

end webhook

namespace webhook

open AdmissionWebhookBuilder

/-- The operations joined with `_` contain no separator if no operation does. -/
theorem not_mem_Join_of_operations (ops : List String) (h : ∀ op ∈ ops, '/' ∉ op.data) :
    '/' ∉ (strings.Join ops "_").data := by
  apply strings.not_mem_joinRunes '/' "_".data (by decide)
  intro e he
  obtain ⟨op, hop, rfl⟩ := List.mem_map.mp he
  exact h op hop

/-- The type element can be read back from the synthesized path, whatever the
server name and the kind are, when it contains no separator, is compared with a
plain path element, and no operation contains a separator. -/
theorem synthesized_path_type_injective (s k x y : String) (ops : List String)
    (hx : '/' ∉ x.data) (hy : PlainElement y) (hops : ∀ op ∈ ops, '/' ∉ op.data)
    (h : filepath.Join ["pkg", "webhook", s, k, x, strings.Join ops "_" ++ "_webhook.go"]
      = filepath.Join ["pkg", "webhook", s, k, y, strings.Join ops "_" ++ "_webhook.go"]) :
    x = y := by
  have hshape : ∀ z : String,
      filepath.Join ["pkg", "webhook", s, k, z, strings.Join ops "_" ++ "_webhook.go"]
        = filepath.Clean
            ⟨'p' :: (('k' :: 'g' :: '/' :: ("webhook".data ++ '/' :: (s.data ++ '/' :: k.data)))
              ++ '/' :: (z.data ++ '/' :: (strings.Join ops "_" ++ "_webhook.go").data))⟩ := by
    intro z
    have hd : strings.Join ["pkg", "webhook", s, k, z, strings.Join ops "_" ++ "_webhook.go"] "/"
        = ⟨'p' :: (('k' :: 'g' :: '/' :: ("webhook".data ++ '/' :: (s.data ++ '/' :: k.data)))
            ++ '/' :: (z.data ++ '/' :: (strings.Join ops "_" ++ "_webhook.go").data))⟩ := by
      apply String.ext
      simp only [strings.Join, List.map_cons, List.map_nil, strings.joinRunes]
      simp
    rw [← hd]
    rfl
  have hlast := PlainElement_append _ "_webhook.go" (not_mem_Join_of_operations ops hops)
    (by decide) (by decide)
  have hdata : ∀ z : String, PlainElement z →
      z.data ≠ [] ∧ z.data ≠ ['.'] ∧ z.data ≠ ['.', '.'] ∧ '/' ∉ z.data :=
    fun z hz => ⟨filepath.data_ne_nil z hz.1, fun hd => hz.2.1 (String.ext hd),
      fun hd => hz.2.2.1 (String.ext hd), hz.2.2.2⟩
  rw [hshape x, hshape y] at h
  exact String.ext (filepath.Clean_ends_injective 'p' _ x.data y.data _ (by decide)
    hx (hdata y hy) (hdata _ hlast) h)

/-- C11, as stated, fails: the type `MUTATING` differs from `mutating`, yet on
a fresh builder of that type `GetInput` normalizes the type to `mutating` and
synthesizes the very path it synthesizes for the type `mutating`. -/
theorem GetInput_non_mutating_counterexample :
    "MUTATING" ≠ "mutating"
    ∧ ((sample.builder "default" "Foo" "MUTATING" ["create"]).GetInput sample.stubPackage).map
        (fun r => (r.receiver.Mutating, r.receiver.Type_, r.receiver.Path))
      = some (false, "mutating", "pkg/webhook/default_server/foo/mutating/create_webhook.go")
    ∧ ((sample.builder "default" "Foo" "mutating" ["create"]).GetInput sample.stubPackage).map
        (fun r => r.receiver.Path)
      = some "pkg/webhook/default_server/foo/mutating/create_webhook.go" := by
  decide

/-- Further fresh builders of a type other than `mutating` that are given the
path of the type `mutating`: a type that lower-cases and cleans to `mutating`,
and an operation that climbs out of the type element. -/
theorem GetInput_non_mutating_collisions :
    ((sample.builder "default" "Foo" "Mutating/." ["create"]).GetInput sample.stubPackage).map
        (fun r => r.receiver.Path)
      = ((sample.builder "default" "Foo" "mutating" ["create"]).GetInput sample.stubPackage).map
        (fun r => r.receiver.Path)
    ∧ ((sample.builder "default" "Foo" "validating" ["../create"]).GetInput
        sample.stubPackage).map (fun r => r.receiver.Path)
      = ((sample.builder "default" "Foo" "mutating" ["../create"]).GetInput
        sample.stubPackage).map (fun r => r.receiver.Path) := by
  decide

/-- C11, amended: on a fresh builder (flag `Mutating` false, `Path` empty,
`Resource` not nil) whose type differs from `mutating`, `GetInput` returns and
the flag is false afterwards; if the lower-cased type differs from `mutating`
too, so does the normalized type; and if moreover the lower-cased type and
every operation contain no separator, the synthesized path differs from the
one synthesized for the same server name, kind and operations with the type
`mutating`. -/
theorem GetInput_non_mutating (pkg : Package) (f : AdmissionWebhookBuilder)
    (res : resource.Resource) (hres : f.Resource = some res) (hmut : f.Mutating = false)
    (hpath : f.Path = "") (htype : f.Type_ ≠ "mutating") :
    ∃ r : GetInputResult, f.GetInput pkg = some r
      ∧ r.receiver.Mutating = false
      ∧ (strings.ToLower pkg.unicode f.Type_ ≠ "mutating" → r.receiver.Type_ ≠ "mutating")
      ∧ (strings.ToLower pkg.unicode f.Type_ ≠ "mutating" → '/' ∉
          (strings.ToLower pkg.unicode f.Type_).data
          → (∀ op ∈ f.Operations, '/' ∉ op.data)
          → ∃ r2 : GetInputResult, ({ f with Type_ := "mutating" }).GetInput pkg = some r2
              ∧ r.receiver.Path ≠ r2.receiver.Path) := by
  refine ⟨_, GetInput_eq pkg f res hres, ?_, ?_, ?_⟩
  · simp [htype, hmut]
  · exact fun hl => hl
  · intro hl hsep hops
    refine ⟨_, GetInput_eq pkg { f with Type_ := "mutating" } res hres, ?_⟩
    have hlm : strings.ToLower pkg.unicode "mutating" = "mutating" := rfl
    have hpm : PlainElement "mutating" := by unfold PlainElement; decide
    simp only [hpath, if_true, hlm]
    intro h
    exact hl (synthesized_path_type_injective _ _ _ _ f.Operations hsep hpm hops h)

/-- C11, amended, on a fresh builder of type `validating`. -/
theorem GetInput_non_mutating_witness :
    ∃ r r2 : GetInputResult,
      (sample.builder "default" "Foo" "validating" ["create", "update"]).GetInput
          sample.stubPackage = some r
      ∧ (sample.builder "default" "Foo" "mutating" ["create", "update"]).GetInput
          sample.stubPackage = some r2
      ∧ r.receiver.Mutating = false
      ∧ r.receiver.Type_ ≠ "mutating"
      ∧ r.receiver.Path ≠ r2.receiver.Path := by
  obtain ⟨r, hr, hflag, htype, hdiff⟩ :=
    GetInput_non_mutating sample.stubPackage
      (sample.builder "default" "Foo" "validating" ["create", "update"]) ⟨"apps", "v1", "Foo"⟩
      rfl rfl rfl (by decide)
  obtain ⟨r2, hr2, hne⟩ := hdiff (by decide) (by decide) (by decide)
  exact ⟨r, r2, hr, hr2, hflag, htype (by decide), hne⟩

end webhook

namespace webhook

open AdmissionWebhookBuilder

set_option maxRecDepth 100000 in
/-- The parsed template of the builder. -/
theorem Parse_template :
    template.Parse admissionWebhookBuilderTemplate = some
      [.text "",
       .field ["Boilerplate"],
       .text "\n\npackage ",
       .field ["Type"],
       .text "\n\nimport (\n\tadmissionregistrationv1beta1 \"k8s.io/api/admissionregistration/v1beta1\"\n\t\"sigs.k8s.io/controller-runtime/pkg/webhook/admission/builder\"\n\t",
       .field ["Resource", "Group"],
       .text "",
       .field ["Resource", "Version"],
       .text " \"",
       .field ["ResourcePackage"],
       .text "/",
       .field ["Resource", "Group"],
       .text "/",
       .field ["Resource", "Version"],
       .text "\"\n)\n\nfunc init() \x7b\n\tbuilderName := \"",
       .field ["BuilderName"],
       .text "\"\n\tBuilders[builderName] = builder.\n\t\tNewWebhookBuilder().\n\t\tName(builderName + \".",
       .field ["Domain"],
       .text "\").\n\t\tPath(\"/\" + builderName).\n",
       .ifField ["Mutating"],
       .text "\tMutating().\n",
       .orElse,
       .text "\tValidating().\n",
       .endIf,
       .text "\n\t\tOperations(",
       .field ["OperationsParameterString"],
       .text ").\n\t\tFailurePolicy(admissionregistrationv1beta1.Fail).\n\t\tForType(&",
       .field ["Resource", "Group"],
       .text "",
       .field ["Resource", "Version"],
       .text ".",
       .field ["Resource", "Kind"],
       .text "\x7b\x7d)\n\x7d\n"] := by
  decide

/-- The fields that the template of the builder names, looked up in a builder
whose `Resource` is not nil. -/
theorem field_of_template (f : AdmissionWebhookBuilder) (res : resource.Resource)
    (hres : f.Resource = some res) :
    f.field ["Boilerplate"] = some (.string f.Boilerplate)
    ∧ f.field ["Type"] = some (.string f.Type_)
    ∧ f.field ["Resource", "Group"] = some (.string res.Group)
    ∧ f.field ["Resource", "Version"] = some (.string res.Version)
    ∧ f.field ["Resource", "Kind"] = some (.string res.Kind)
    ∧ f.field ["ResourcePackage"] = some (.string f.ResourcePackage)
    ∧ f.field ["BuilderName"] = some (.string f.BuilderName)
    ∧ f.field ["Domain"] = some (.string f.Domain)
    ∧ f.field ["OperationsParameterString"] = some (.string f.OperationsParameterString)
    ∧ f.field ["Mutating"] = some (.bool f.Mutating) := by
  refine ⟨rfl, rfl, ?_, ?_, ?_, rfl, rfl, rfl, rfl, rfl⟩
  · show f.Resource.map _ = _
    rw [hres]; rfl
  · show f.Resource.map _ = _
    rw [hres]; rfl
  · show f.Resource.map _ = _
    rw [hres]; rfl

/-- The file rendered from a builder whose `Resource` is not nil: the template
with every action replaced by the field it names, and the branch of the `if`
chosen by the flag `Mutating`. -/
theorem Execute_template (f : AdmissionWebhookBuilder) (res : resource.Resource)
    (hres : f.Resource = some res) :
    template.Execute admissionWebhookBuilderTemplate f.field = some
      (f.Boilerplate
          ++ "\n\npackage "
          ++ f.Type_
          ++ "\n\nimport (\n\tadmissionregistrationv1beta1 \"k8s.io/api/admissionregistration/v1beta1\"\n\t\"sigs.k8s.io/controller-runtime/pkg/webhook/admission/builder\"\n\t"
          ++ res.Group
          ++ res.Version
          ++ " \""
          ++ f.ResourcePackage
          ++ "/"
          ++ res.Group
          ++ "/"
          ++ res.Version
          ++ "\"\n)\n\nfunc init() \x7b\n\tbuilderName := \""
          ++ f.BuilderName
          ++ "\"\n\tBuilders[builderName] = builder.\n\t\tNewWebhookBuilder().\n\t\tName(builderName + \"."
          ++ f.Domain
          ++ "\").\n\t\tPath(\"/\" + builderName).\n"
          ++ (if f.Mutating then "\tMutating().\n" else "\tValidating().\n")
          ++ "\n\t\tOperations("
          ++ f.OperationsParameterString
          ++ ").\n\t\tFailurePolicy(admissionregistrationv1beta1.Fail).\n\t\tForType(&"
          ++ res.Group
          ++ res.Version
          ++ "."
          ++ res.Kind
          ++ "\x7b\x7d)\n\x7d\n") := by
  obtain ⟨h1, h2, h3, h4, h5, h6, h7, h8, h9, h10⟩ := field_of_template f res hres
  simp only [template.Execute, Parse_template, Option.some_bind]
  cases hm : f.Mutating <;>
    simp only [template.exec, h1, h2, h3, h4, h5, h6, h7, h8, h9, h10, hm, template.Value.print,
      template.Value.truth, List.all_nil, List.all_cons, Bool.and_true, Bool.not_true,
      Bool.not_false, if_true, if_false, Option.map_some', Bool.false_eq_true,
      Bool.and_false, Bool.true_and, Option.some.injEq] <;>
    (apply String.ext; simp only [String.data_append, List.append_assoc]; rfl)

/-- The template starts with the boilerplate and the package clause, and the
package clause names the field `Type`. -/
theorem template_package_clause :
    ∃ rest : String,
      admissionWebhookBuilderTemplate
        = "\x7b\x7b .Boilerplate \x7d\x7d\n\npackage \x7b\x7b .Type \x7d\x7d\n" ++ rest :=
  ⟨⟨admissionWebhookBuilderTemplate.data.drop 40⟩, rfl⟩

/-- A text that starts in a given way still does so when more is written after it. -/
theorem exists_rest_append (s t start : String) (h : ∃ rest : String, s = start ++ rest) :
    ∃ rest : String, s ++ t = start ++ rest := by
  obtain ⟨rest, hrest⟩ := h
  exact ⟨rest ++ t, by rw [hrest, String.append_assoc]⟩

/-- The file rendered from a builder whose `Resource` is not nil starts with
the boilerplate and the package clause, whose package name is the value of the
field `Type`. -/
theorem Execute_template_package (f : AdmissionWebhookBuilder) (res : resource.Resource)
    (hres : f.Resource = some res) :
    ∃ rest : String,
      template.Execute admissionWebhookBuilderTemplate f.field
        = some (f.Boilerplate ++ "\n\npackage " ++ f.Type_ ++ "\n" ++ rest) := by
  have hstart : ∃ rest : String,
      f.Boilerplate ++ "\n\npackage " ++ f.Type_
          ++ "\n\nimport (\n\tadmissionregistrationv1beta1 \"k8s.io/api/admissionregistration/v1beta1\"\n\t\"sigs.k8s.io/controller-runtime/pkg/webhook/admission/builder\"\n\t"
        = f.Boilerplate ++ "\n\npackage " ++ f.Type_ ++ "\n" ++ rest :=
    ⟨"\nimport (\n\tadmissionregistrationv1beta1 \"k8s.io/api/admissionregistration/v1beta1\"\n\t\"sigs.k8s.io/controller-runtime/pkg/webhook/admission/builder\"\n\t",
      by rw [String.append_assoc _ "\n" _]; rfl⟩
  have hout : ∃ rest : String,
      f.Boilerplate
          ++ "\n\npackage "
          ++ f.Type_
          ++ "\n\nimport (\n\tadmissionregistrationv1beta1 \"k8s.io/api/admissionregistration/v1beta1\"\n\t\"sigs.k8s.io/controller-runtime/pkg/webhook/admission/builder\"\n\t"
          ++ res.Group
          ++ res.Version
          ++ " \""
          ++ f.ResourcePackage
          ++ "/"
          ++ res.Group
          ++ "/"
          ++ res.Version
          ++ "\"\n)\n\nfunc init() \x7b\n\tbuilderName := \""
          ++ f.BuilderName
          ++ "\"\n\tBuilders[builderName] = builder.\n\t\tNewWebhookBuilder().\n\t\tName(builderName + \"."
          ++ f.Domain
          ++ "\").\n\t\tPath(\"/\" + builderName).\n"
          ++ (if f.Mutating then "\tMutating().\n" else "\tValidating().\n")
          ++ "\n\t\tOperations("
          ++ f.OperationsParameterString
          ++ ").\n\t\tFailurePolicy(admissionregistrationv1beta1.Fail).\n\t\tForType(&"
          ++ res.Group
          ++ res.Version
          ++ "."
          ++ res.Kind
          ++ "\x7b\x7d)\n\x7d\n"
        = f.Boilerplate ++ "\n\npackage " ++ f.Type_ ++ "\n" ++ rest := by
    iterate 22 refine exists_rest_append _ _ (f.Boilerplate ++ "\n\npackage " ++ f.Type_ ++ "\n") ?_
    exact hstart
  obtain ⟨rest, hrest⟩ := hout
  exact ⟨rest, by rw [Execute_template f res hres, hrest]⟩

/-- The file rendered after a call of `GetInput` that attached the template to
the returned `Input` and left a `Resource` that is not nil starts with the
boilerplate and the package clause, whose package name is the value of the
field `Type` after the call. -/
theorem render_package (r : GetInputResult) (res : resource.Resource)
    (hbody : r.ret.TemplateBody = admissionWebhookBuilderTemplate)
    (hres : r.receiver.Resource = some res) :
    ∃ rest : String,
      r.render
        = some (r.receiver.Boilerplate ++ "\n\npackage " ++ r.receiver.Type_ ++ "\n" ++ rest) := by
  unfold GetInputResult.render
  rw [hbody]
  exact Execute_template_package r.receiver res hres

/-- C17: discriminator normalization. On a builder with a non-nil `Resource`,
`GetInput` returns, and afterwards `Type` is the lower-cased form of `Type`
before the call; a synthesized path has this lower-cased value as its type
element; the template attached declares the package by the field `Type`; and
the file rendered from the builder after the call starts with the boilerplate
and the package clause whose package name is the lower-cased type. -/
theorem GetInput_normalizes_type (pkg : Package) (f : AdmissionWebhookBuilder)
    (res : resource.Resource) (hres : f.Resource = some res) :
    ∃ r : GetInputResult, f.GetInput pkg = some r
      ∧ r.receiver.Type_ = strings.ToLower pkg.unicode f.Type_
      ∧ (f.Path = "" →
          r.receiver.Path
            = filepath.Join ["pkg", "webhook", f.Server ++ "_server",
                strings.ToLower pkg.unicode res.Kind, r.receiver.Type_,
                strings.Join f.Operations "_" ++ "_webhook.go"])
      ∧ (∃ rest : String,
          r.receiver.TemplateBody
            = "\x7b\x7b .Boilerplate \x7d\x7d\n\npackage \x7b\x7b .Type \x7d\x7d\n" ++ rest)
      ∧ ∃ rest : String,
          r.render
            = some (f.Boilerplate ++ "\n\npackage " ++ strings.ToLower pkg.unicode f.Type_
                ++ "\n" ++ rest) := by
  refine ⟨_, GetInput_eq pkg f res hres, rfl, ?_, ?_, ?_⟩
  · intro hpath
    simp only [hpath, if_true]
  · exact template_package_clause
  · exact render_package _ res rfl hres

/-- C17 on a fresh builder of type `Mutating` for a kind written with the
Kelvin sign: the type becomes `mutating`, the path has the elements `kind` and
`mutating`, and the rendered file starts with `package mutating`. -/
theorem GetInput_normalizes_type_witness :
    ∃ (r : GetInputResult) (rest : String),
      (sample.builder "default" "\u212aind" "Mutating" ["create"]).GetInput sample.stubPackage
          = some r
      ∧ r.receiver.Type_ = "mutating"
      ∧ r.receiver.Path = "pkg/webhook/default_server/kind/mutating/create_webhook.go"
      ∧ r.render = some ("\n\npackage mutating\n" ++ rest) := by
  obtain ⟨r, hr, htype, hpath, _, rest, hrender⟩ :=
    GetInput_normalizes_type sample.stubPackage
      (sample.builder "default" "\u212aind" "Mutating" ["create"]) ⟨"apps", "v1", "\u212aind"⟩
      rfl
  have hstart : (sample.builder "default" "\u212aind" "Mutating" ["create"]).Boilerplate
        ++ "\n\npackage "
        ++ strings.ToLower sample.stubPackage.unicode
            (sample.builder "default" "\u212aind" "Mutating" ["create"]).Type_
        ++ "\n"
      = "\n\npackage mutating\n" := by
    decide
  refine ⟨r, rest, hr, htype.trans (by decide), ?_, ?_⟩
  · rw [hpath rfl, htype]
    decide
  · rw [hrender, hstart]

/-- Beyond ASCII the builder follows the case tables: with the sample tables, a
fresh builder of kind capital E with acute, of a type written with capital I
with dot above and with an operation that starts with small e with acute gets
the kind element small e with acute, the type `mutating` (the flag stays
false, the type before the call not being `mutating`), and the operation with a
capital first letter. -/
theorem GetInput_beyond_ASCII :
    ((sample.builder "default" "\u00c9" "mutat\u0130ng" ["\u00e9t\u00e9"]).GetInput
        sample.stubPackage).map
        (fun r => (r.receiver.Type_, r.receiver.Mutating, r.receiver.Path,
          r.receiver.OperationsParameterString))
      = some ("mutating", false,
          "pkg/webhook/default_server/\u00e9/mutating/\u00e9t\u00e9_webhook.go",
          "admissionregistrationv1beta1.\u00c9t\u00e9") := by
  decide

end webhook
